import Mathlib

/-!
Shallow embedding of the planning engine of a Google-Photos-takeout
album-duplicate remover (src/main.py), together with proofs checking the
natural-language specification against it.

Modelling conventions:
* Python str values are Lean String values; startswith and the pathlib
  stem are re-implemented character-wise below.
* pathlib.Path values are FPath records (parent components plus final
  name); all paths handled by the planner are relative to the takeout
  root, so the root prefix is dropped throughout.
* Python dict values (which preserve insertion order) are association
  lists, List (String × v): lookup finds the first binding, assignment
  updates the first binding in place or appends a fresh one, del removes
  the first binding. defaultdict(list) subscripting is dget (inserting
  an empty list when the key is missing) and dappend.
* File contents are provided by a pure readFile : FPath → String
  parameter; the planner only ever compares contents for equality.
* Python exceptions are modelled with Except or with an Option String
  error component next to the state reached when the exception is
  raised (in-place mutations done before the raise persist).
* print calls are informational; where a claim mentions them
  (remove_untitled_albums) the printed data is returned as a report
  list, elsewhere they are dropped.
-/

/-- Python str.startswith, character-wise on the underlying character list. -/
def startswith (s pre : String) : Bool :=
  pre.data.isPrefixOf s.data

/-- Index of the last dot in a character list (Python str.rfind), if any. -/
def rfind_dot (cs : List Char) : Option Nat :=
  match cs.reverse.findIdx? (· = '.') with
  | none => none
  | some j => some (cs.length - 1 - j)

/-- pathlib stem of a file name: the name with its last suffix dropped.
Following pathlib, the suffix starts at the last dot when that dot is
neither the first nor the last character; otherwise the stem is the
whole name. -/
def stem_str (s : String) : String :=
  match rfind_dot s.data with
  | none => s
  | some i => if 0 < i && i < s.data.length - 1 then ⟨s.data.take i⟩ else s

/-- Python name.replace applied with a one-character pattern, as used for
sourceName.replace of a space by an underscore. -/
def underscorify (s : String) : String :=
  ⟨s.data.map (fun c => if c = ' ' then '_' else c)⟩

/-- A filesystem path relative to the takeout root: parent directory
components plus the final name (pathlib Path.parent and Path.name). -/
structure FPath where
  dir : List String
  name : String
deriving DecidableEq, Repr

/-- Matches the source_folder_regex of main.py: Photos from, a space and
four digits, anchored at both ends. -/
def is_source_name (s : String) : Bool :=
  ("Photos from ".data).isPrefixOf s.data &&
    (let rest := s.data.drop ("Photos from ".data).length
     rest.length == 4 && rest.all Char.isDigit)

/-- Matches the untitled_folder_regex of main.py: Untitled, optionally
followed by a parenthesised digit group, anchored at both ends. -/
def is_untitled_name (s : String) : Bool :=
  s == "Untitled" ||
  (("Untitled(".data).isPrefixOf s.data &&
    (let rest := s.data.drop ("Untitled(".data).length
     rest.getLast? == some ')' && !rest.dropLast.isEmpty && rest.dropLast.all Char.isDigit))

def album_folder_name : String := "ALBUMS"

def special_folders : List String := ["Bin", "Archive", "Failed Videos", album_folder_name]

def metadata_file_name : String := "metadata.json"

/-- Association-list lookup: the first binding of the key (Python dict
subscripting, with None in place of a KeyError). -/
def alist_lookup {v : Type} : List (String × v) → String → Option v
  | [], _ => none
  | (k, a) :: t, key => if k = key then some a else alist_lookup t key

/-- Python: key in dict. -/
def alist_mem {v : Type} (l : List (String × v)) (key : String) : Bool :=
  (alist_lookup l key).isSome

/-- Python dict assignment: update the first binding in place, or append
a fresh binding at the end (insertion order preserved). -/
def alist_set {v : Type} : List (String × v) → String → v → List (String × v)
  | [], key, a => [(key, a)]
  | (k, b) :: t, key, a => if k = key then (k, a) :: t else (k, b) :: alist_set t key a

/-- Python del dict entry: drop the first binding of the key. -/
def alist_del {v : Type} : List (String × v) → String → List (String × v)
  | [], _ => []
  | (k, b) :: t, key => if k = key then t else (k, b) :: alist_del t key

/-- defaultdict(list) subscripting: the held list, along with the
dictionary (extended by an empty binding when the key was missing). -/
def dget {v : Type} (l : List (String × List v)) (key : String) :
    List v × List (String × List v) :=
  match alist_lookup l key with
  | some a => (a, l)
  | none => ([], l ++ [(key, [])])

/-- defaultdict(list) subscript-and-append: d where the key holds its
old list with one more element (the list is fresh when the key was new). -/
def dappend {v : Type} (l : List (String × List v)) (key : String) (a : v) :
    List (String × List v) :=
  match dget l key with
  | (old, l') => alist_set l' key (old ++ [a])

/-- Fold with a Python-exception-style short circuit: the first step that
reports an error stops the iteration, and the state it reached (its
in-place mutations included) is what comes back. -/
def foldE {σ α : Type} (f : σ → α → σ × Option String) : σ → List α → σ × Option String
  | s, [] => (s, none)
  | s, a :: t =>
    match f s a with
    | (s', none) => foldE f s' t
    | (s', some e) => (s', some e)

/-- FileCluster of main.py: the base file first, then its sidecars.
The constructor-side relativisation against the takeout root is dropped
because every path in the model is already root-relative. -/
structure FileCluster where
  paths : List FPath
deriving DecidableEq, Repr

/-- One record of the task ledger, as a tagged variant instead of the
Python tuple. The create payload is the structured album descriptor;
its yaml serialisation is an external collaborator per the spec. -/
structure AlbumYaml where
  album : String
  photo_files : List String
deriving DecidableEq, Repr

inductive TaskItem where
  | rename : FPath → FPath → TaskItem
  | create : FPath → AlbumYaml → TaskItem
  | create_dir : FPath → TaskItem
  | delete : FPath → TaskItem
deriving DecidableEq, Repr

/-- FileCluster.prefix_rename of main.py: one rename record per path is
appended to the ledger, and the renamed cluster comes back as a fresh
value (the old one is not mutated). -/
def FileCluster.prefix_rename (c : FileCluster) (pfx : String) (task_ledger : List TaskItem) :
    List TaskItem × FileCluster :=
  (task_ledger ++ c.paths.map (fun p => TaskItem.rename p ⟨p.dir, pfx ++ p.name⟩),
   ⟨c.paths.map (fun p => ⟨p.dir, pfx ++ p.name⟩)⟩)

/-- Album of main.py. -/
structure Album where
  photo_files : List (String × FileCluster)
  other_files : List (String × FileCluster)
  name : String
  is_source : Bool
  is_special : Bool
deriving DecidableEq, Repr

/-- Takeout of main.py; the root path is dropped because the model works
with root-relative paths throughout. -/
structure Takeout where
  photos_source : List (String × Album)
  albums : List (String × Album)
  special : List (String × Album)
deriving DecidableEq, Repr

/-- cluster_files_entries of main.py: walk the sorted entries, opening a
fresh cluster whenever the entry name does not start with the current
cluster base name or does not start with its stem, and appending the
entry to the cluster keyed by the current base name. -/
def cluster_files_entries (entries : List FPath) : List (String × FileCluster) :=
  (entries.foldl
    (fun st entry =>
      let cur :=
        match st.1 with
        | none => entry
        | some c =>
          if !(startswith entry.name c.name) || !(startswith entry.name (stem_str c.name)) then
            entry
          else c
      (some cur, dappend st.2 cur.name entry))
    ((none : Option FPath), ([] : List (String × List FPath)))).2.map
    (fun kv => (kv.1, FileCluster.mk kv.2))

/-- Kind of a directory entry as the os sees it (Path.is_dir, Path.is_file,
with other for entries that are neither). -/
inductive FKind where
  | file | dir | other
deriving DecidableEq, Repr

structure DirEntry where
  path : FPath
  kind : FKind
deriving DecidableEq, Repr

/-- index_folder of main.py on one folder name and its sorted entries. -/
def index_folder (folderName : String) (entries : List DirEntry) : Except String Album :=
  let is_source := is_source_name folderName
  let is_special := special_folders.contains folderName
  if entries.any (fun p => p.kind == FKind.dir) then
    .error "Subfolders are not allowed in a album folder."
  else if !(entries.all (fun p => p.kind == FKind.file)) then
    .error "All entries in the album folder must be files."
  else if is_source && entries.any (fun p => p.path.name == metadata_file_name) then
    .error "Metadata file is not allowed in a source folder."
  else
    let clusters := cluster_files_entries (entries.map (·.path))
    .ok {
      photo_files := clusters.filter (fun kv => kv.1 ≠ metadata_file_name)
      other_files := clusters.filter (fun kv => kv.1 = metadata_file_name)
      name := folderName
      is_source := is_source
      is_special := is_special
    }

/-- One entry of the takeout root folder: its name, whether it is a
directory, and (for directories) its own sorted entries. -/
structure RootEntry where
  name : String
  isDir : Bool
  entries : List DirEntry
deriving DecidableEq, Repr

/-- The album-collection loop of open_gphotos_root_path: index every
directory under the root, skip folders with no clusters at all, and key
the kept Album values by folder name. -/
def collect_albums (acc : List (String × Album)) :
    List RootEntry → Except String (List (String × Album))
  | [] => .ok acc
  | e :: rest =>
    if !e.isDir then collect_albums acc rest
    else
      match index_folder e.name e.entries with
      | .error msg => .error msg
      | .ok album =>
        if album.photo_files.isEmpty && album.other_files.isEmpty then
          collect_albums acc rest
        else collect_albums (alist_set acc album.name album) rest

/-- open_gphotos_root_path of main.py: collect the albums, partition them
into special, source and plain-album folders, and demand at least one
source folder. -/
def open_gphotos_root_path (roots : List RootEntry) : Except String Takeout :=
  match collect_albums [] roots with
  | .error msg => .error msg
  | .ok albums =>
    let folder_special := albums.filter (fun kv => kv.2.is_special)
    let folder_source := albums.filter (fun kv => kv.2.is_source && !kv.2.is_special)
    let folder_album := albums.filter (fun kv => !kv.2.is_source && !kv.2.is_special)
    if folder_source.isEmpty then .error "Need at least one photo source folder."
    else .ok { photos_source := folder_source, albums := folder_album, special := folder_special }

/-- merge_files_in_albums of main.py: cluster key to the list of folder
names holding that key. An empty album dict gives none, modelling the
early return of a plain set instead of a dict. -/
def merge_files_in_albums (albums : List (String × Album)) :
    Option (List (String × List String)) :=
  if albums.isEmpty then none
  else
    some (albums.foldl
      (fun files kv =>
        kv.2.photo_files.foldl (fun files ckv => dappend files ckv.1 kv.2.name) files)
      [])

/-- compare_two_files of main.py: full byte-for-byte content equality. -/
def compare_two_files (readFile : FPath → String) (file1 file2 : FPath) : Bool :=
  readFile file1 == readFile file2

/-- The mutable state threaded through duplicate resolution: the two
folder dictionaries of the Takeout aggregate, the two merged indices
local to resolve_duplicates, and the task ledger. -/
structure RSt where
  ps : List (String × Album)
  als : List (String × Album)
  af : List (String × List String)
  sf : List (String × List String)
  ledger : List TaskItem
deriving DecidableEq, Repr

/-- The dict comprehensions of resolve_album_duplicate: look the
duplicate key up in each named folder, left to right, raising a
KeyError (modelled as an error string) at the first miss. -/
def lookup_clusters (folders : List (String × Album)) (names : List String) (dup : String) :
    Except String (List (String × FileCluster)) :=
  match names with
  | [] => .ok []
  | n :: rest =>
    match alist_lookup folders n with
    | none => .error "KeyError: folder"
    | some alb =>
      match alist_lookup alb.photo_files dup with
      | none => .error "KeyError: cluster"
      | some c =>
        match lookup_clusters folders rest dup with
        | .error e => .error e
        | .ok l => .ok ((n, c) :: l)

/-- The inner source loop of the match-building pass: compare one album
copy against every source copy, appending the album name under each
byte-identical source. Subscripting paths with 0 on an empty cluster is
the Python IndexError. -/
def build_matches_inner (readFile : FPath → String) (ka : String) (ac : FileCluster)
    (sms : List (String × FileCluster)) (m : List (String × List String)) :
    Except String (List (String × List String)) :=
  match sms with
  | [] => .ok m
  | (ks, sc) :: rest =>
    match ac.paths, sc.paths with
    | pa :: _, psrc :: _ =>
      build_matches_inner readFile ka ac rest
        (if compare_two_files readFile pa psrc then dappend m ks ka else m)
    | _, _ => .error "IndexError: cluster has no paths"

/-- The match-building loops of resolve_album_duplicate: for every album
copy and every source copy of the key, compare the cluster base files
byte for byte; the result maps a source folder name to the album folder
names whose copy equals it, in first-match order. -/
def build_matches (readFile : FPath → String)
    (ams sms : List (String × FileCluster)) (m : List (String × List String)) :
    Except String (List (String × List String)) :=
  match ams with
  | [] => .ok m
  | (ka, ac) :: rest =>
    match build_matches_inner readFile ka ac sms m with
    | .error e => .error e
    | .ok m' => build_matches readFile rest sms m'

/-- _rename_cluster of main.py applied to one folder dictionary: look the
cluster up (KeyError when missing), schedule the renames, then run the
collision guard against the two merged indices; only when the guard
passes is the folder dictionary re-keyed (new key written, old key
popped). The ledger keeps the renames appended before the guard ran. -/
def _rename_cluster (photo_files : List (String × FileCluster))
    (pfx_str dup_key upd_key : String) (task_ledger : List TaskItem)
    (album_files source_files : List (String × List String)) :
    (List TaskItem × List (String × FileCluster)) × Option String :=
  match alist_lookup photo_files dup_key with
  | none => ((task_ledger, photo_files), some "KeyError: cluster to rename")
  | some cluster =>
    match cluster.prefix_rename pfx_str task_ledger with
    | (ledger', renamed) =>
      if renamed.paths.any (fun p => alist_mem album_files p.name) then
        ((ledger', photo_files), some "already exists in album files")
      else if renamed.paths.any (fun p => alist_mem source_files p.name) then
        ((ledger', photo_files), some "already exists in source files")
      else ((ledger', alist_del (alist_set photo_files upd_key renamed) dup_key), none)

/-- The call of _rename_cluster on the photo_files dictionary of one
source folder (takeout.photos_source subscripting included). -/
def rename_in_source (folderName pfx_str dup_key upd_key : String) (st : RSt) :
    RSt × Option String :=
  match alist_lookup st.ps folderName with
  | none => (st, some "KeyError: source folder")
  | some alb =>
    match _rename_cluster alb.photo_files pfx_str dup_key upd_key st.ledger st.af st.sf with
    | ((ledger', pf'), none) =>
      ({ st with ps := alist_set st.ps folderName { alb with photo_files := pf' },
                 ledger := ledger' }, none)
    | ((ledger', _), some e) => ({ st with ledger := ledger' }, some e)

/-- The call of _rename_cluster on the photo_files dictionary of one
album folder (takeout.albums subscripting included). -/
def rename_in_album (folderName pfx_str dup_key upd_key : String) (st : RSt) :
    RSt × Option String :=
  match alist_lookup st.als folderName with
  | none => (st, some "KeyError: album folder")
  | some alb =>
    match _rename_cluster alb.photo_files pfx_str dup_key upd_key st.ledger st.af st.sf with
    | ((ledger', pf'), none) =>
      ({ st with als := alist_set st.als folderName { alb with photo_files := pf' },
                 ledger := ledger' }, none)
    | ((ledger', _), some e) => ({ st with ledger := ledger' }, some e)

/-- One iteration of the matches loop of resolve_album_duplicate: rename
the matched source folder cluster, then every byte-identical album
folder cluster, all under the prefix derived from the source folder
name. -/
def step_match (dup : String) (st : RSt) (kv : String × List String) : RSt × Option String :=
  let pfx_str := underscorify kv.1 ++ "__"
  let upd_key := pfx_str ++ dup
  match rename_in_source kv.1 pfx_str dup upd_key st with
  | (st', some e) => (st', some e)
  | (st', none) =>
    foldE (fun st ka => rename_in_album ka pfx_str dup upd_key st) st' kv.2

/-- One iteration of the unmatched-source loop of resolve_album_duplicate:
rename the source folder cluster under its own folder-name prefix. -/
def step_unmatched (dup : String) (st : RSt) (unmatch : String) : RSt × Option String :=
  let pfx_str := underscorify unmatch ++ "__"
  let upd_key := pfx_str ++ dup
  rename_in_source unmatch pfx_str dup upd_key st

/-- resolve_album_duplicate of main.py for one ambiguous key: gather the
album and source copies, byte-match them, rename every matched source
together with its matching albums and every unmatched source alone, and
finally drop the key from both merged indices. The Python set of
unmatched sources is modelled as the source list filtered by
non-membership in matches (one deterministic refinement of the
unspecified set iteration order; no claim depends on that order). -/
def resolve_album_duplicate (readFile : FPath → String) (dup : String) (st : RSt) :
    RSt × Option String :=
  match dget st.af dup with
  | (albumNames, af') =>
    let st := { st with af := af' }
    match lookup_clusters st.als albumNames dup with
    | .error e => (st, some e)
    | .ok ams =>
      match dget st.sf dup with
      | (sourceNames, sf') =>
        let st := { st with sf := sf' }
        match lookup_clusters st.ps sourceNames dup with
        | .error e => (st, some e)
        | .ok sms =>
          match build_matches readFile ams sms [] with
          | .error e => (st, some e)
          | .ok matched =>
            let unmatched := (sms.map Prod.fst).filter (fun k => !alist_mem matched k)
            match foldE (step_match dup) st matched with
            | (st', some e) => (st', some e)
            | (st', none) =>
              match foldE (step_unmatched dup) st' unmatched with
              | (st'', some e) => (st'', some e)
              | (st'', none) =>
                ({ st'' with af := alist_del st''.af dup, sf := alist_del st''.sf dup },
                 none)

/-- resolve_duplicates of main.py: build the two merged indices, collect
the keys held by more than one source folder, and resolve each. The
Python code returns a plain set from merge_files_in_albums when a folder
dictionary is empty; items() on that set raises an AttributeError, and
subscripting it (first statement of resolve_album_duplicate) raises a
TypeError, which the model reproduces. -/
def resolve_duplicates (readFile : FPath → String)
    (ps als : List (String × Album)) (task_ledger : List TaskItem) :
    (List (String × Album) × List (String × Album) × List TaskItem) × Option String :=
  match merge_files_in_albums ps with
  | none =>
    ((ps, als, task_ledger), some "AttributeError: set object has no attribute items")
  | some sf =>
    let dups := (sf.filter (fun kv => kv.2.length > 1)).map Prod.fst
    match merge_files_in_albums als with
    | some af =>
      match foldE (fun st d => resolve_album_duplicate readFile d st)
          { ps := ps, als := als, af := af, sf := sf, ledger := task_ledger } dups with
      | (st, e) => ((st.ps, st.als, st.ledger), e)
    | none =>
      if dups.isEmpty then ((ps, als, task_ledger), none)
      else ((ps, als, task_ledger), some "TypeError: set object is not subscriptable")

/-- The per-album availability check of remove_untitled_albums: every
photo cluster key of the album is present in at least one source folder
(the Python for-break-else loop). -/
def all_available_in_sources (ps : List (String × Album)) (album : Album) : Bool :=
  album.photo_files.all (fun kv => ps.any (fun sv => alist_mem sv.2.photo_files kv.1))

/-- The first photo cluster key of the album found in no source folder:
the key the Python loop prints before keeping the album. -/
def first_missing_key (ps : List (String × Album)) (album : Album) : Option String :=
  (album.photo_files.map Prod.fst).find?
    (fun k => !(ps.any (fun sv => alist_mem sv.2.photo_files k)))

/-- remove_untitled_albums of main.py: untitled albums whose keys are all
available in a source folder are scheduled for a recursive delete and
dropped from the aggregate; the others are kept, and the blocking key is
reported together with the album name (the report list models the
print call). -/
def remove_untitled_albums (ps als : List (String × Album)) (task_ledger : List TaskItem) :
    List (String × Album) × List TaskItem × List (String × String) :=
  let to_delete :=
    ((als.filter (fun kv => is_untitled_name kv.2.name && all_available_in_sources ps kv.2)).map
      (fun kv => kv.2.name))
  let reports :=
    als.filterMap (fun kv =>
      if is_untitled_name kv.2.name then
        match first_missing_key ps kv.2 with
        | some k => some (k, kv.2.name)
        | none => none
      else none)
  (to_delete.foldl (fun m n => alist_del m n) als,
   task_ledger ++ to_delete.map (fun n => TaskItem.delete ⟨[], n⟩),
   reports)

/-- replace_album_files_with_yaml_metadata of main.py: per album, one
create record carrying the structured descriptor (album name plus the
bare file names of all cluster paths, in cluster-then-path order),
then one delete record per original cluster path. -/
def replace_album_files_with_yaml_metadata (als : List (String × Album))
    (task_ledger : List TaskItem) : List TaskItem :=
  als.foldl
    (fun L kv =>
      let album := kv.2
      let data : AlbumYaml :=
        { album := album.name
          photo_files := (album.photo_files.map (fun ckv => ckv.2.paths.map (·.name))).flatten }
      (L ++ [TaskItem.create ⟨[album.name], "album.yaml"⟩ data]) ++
        ((album.photo_files.map (fun ckv => ckv.2.paths)).flatten).map TaskItem.delete)
    task_ledger

/-- move_into_album_folder of main.py: create the container directory,
then schedule a folder rename for every non-special album. -/
def move_into_album_folder (als : List (String × Album)) (task_ledger : List TaskItem) :
    List TaskItem :=
  (als.foldl
    (fun L kv =>
      if !kv.2.is_special then
        L ++ [TaskItem.rename ⟨[], kv.2.name⟩ ⟨[album_folder_name], kv.2.name⟩]
      else L)
    (task_ledger ++ [TaskItem.create_dir ⟨[], album_folder_name⟩]))

/-- optimize_takeout of main.py: the four planning stages in order, the
later three reached only when duplicate resolution raised nothing. The
report list of the pruning stage is informational and dropped here, as
the Python prints are. -/
def optimize_takeout (readFile : FPath → String) (takeout : Takeout)
    (keep_untitled_albums : Bool) : Takeout × List TaskItem × Option String :=
  match resolve_duplicates readFile takeout.photos_source takeout.albums [] with
  | ((ps1, als1, l1), some e) =>
    ({ takeout with photos_source := ps1, albums := als1 }, l1, some e)
  | ((ps1, als1, l1), none) =>
    let step2 :=
      if keep_untitled_albums then (als1, l1, ([] : List (String × String)))
      else remove_untitled_albums ps1 als1 l1
    match step2 with
    | (als2, l2, _reports) =>
      let l3 := replace_album_files_with_yaml_metadata als2 l2
      let l4 := move_into_album_folder als2 l3
      ({ takeout with photos_source := ps1, albums := als2 }, l4, none)

/-! Concrete inputs used by counterexamples and witnesses. -/

/-- A file-content oracle under which every file is empty. -/
def rf_const : FPath → String := fun _ => ""

/-- A one-source, no-album takeout that is already resolved: no key held
by more than one source folder, no untitled album. -/
def t0_resolved : Takeout :=
  { photos_source :=
      [("Photos from 2020",
        { photo_files := [("a.jpg", ⟨[⟨["Photos from 2020"], "a.jpg"⟩]⟩)]
          other_files := []
          name := "Photos from 2020"
          is_source := true
          is_special := false })]
    albums := []
    special := [] }

/-- Content oracle for the two-source, one-album state: the two source
copies and the album copy of x.jpg all differ byte for byte. -/
def rf_distinct : FPath → String := fun p =>
  if p.dir = ["Photos from 2020"] then "a"
  else if p.dir = ["Photos from 2021"] then "b"
  else "c"

def src2020_album : Album :=
  { photo_files := [("x.jpg", ⟨[⟨["Photos from 2020"], "x.jpg"⟩]⟩)]
    other_files := []
    name := "Photos from 2020"
    is_source := true
    is_special := false }

def src2021_album : Album :=
  { photo_files := [("x.jpg", ⟨[⟨["Photos from 2021"], "x.jpg"⟩]⟩)]
    other_files := []
    name := "Photos from 2021"
    is_source := true
    is_special := false }

def albumA : Album :=
  { photo_files := [("x.jpg", ⟨[⟨["AlbumA"], "x.jpg"⟩]⟩)]
    other_files := []
    name := "AlbumA"
    is_source := false
    is_special := false }

/-- Resolution state for the key x.jpg held by two byte-distinct source
folders and one album whose copy matches neither source. -/
def st_dup : RSt :=
  { ps := [("Photos from 2020", src2020_album), ("Photos from 2021", src2021_album)]
    als := [("AlbumA", albumA)]
    af := [("x.jpg", ["AlbumA"])]
    sf := [("x.jpg", ["Photos from 2020", "Photos from 2021"])]
    ledger := [] }

/-- A cluster whose sidecar rename collides with an existing merged-index
key although its base rename does not. -/
def pf_sidecar : List (String × FileCluster) :=
  [("a.jpg", ⟨[⟨["S"], "a.jpg"⟩, ⟨["S"], "a.jpg.json"⟩]⟩)]

def af_sidecar : List (String × List String) := [("P__a.jpg.json", ["X"])]

/-- The ledger fragment the metadata writer emits for one album: the
descriptor create first, then one delete per original cluster path, in
cluster-then-path order. -/
def album_yaml_block (album : Album) : List TaskItem :=
  TaskItem.create ⟨[album.name], "album.yaml"⟩
      ⟨album.name, (album.photo_files.map (fun ckv => ckv.2.paths.map (·.name))).flatten⟩ ::
    ((album.photo_files.map (fun ckv => ckv.2.paths)).flatten).map TaskItem.delete

/-- Whether a ledger record is the descriptor create of the named album. -/
def is_yaml_create_for (t : TaskItem) (name : String) : Bool :=
  match t with
  | TaskItem.create p _ => p == FPath.mk [name] "album.yaml"
  | _ => false

/-- Proof-side pure restatement of the collection loop, defined only to
name the value collect_albums returns when no folder fails to index. -/
def collect_pure (acc : List (String × Album)) : List RootEntry → List (String × Album)
  | [] => acc
  | e :: rest =>
    if !e.isDir then collect_pure acc rest
    else
      match index_folder e.name e.entries with
      | .error _ => collect_pure acc rest
      | .ok album =>
        if album.photo_files.isEmpty && album.other_files.isEmpty then
          collect_pure acc rest
        else collect_pure (alist_set acc album.name album) rest

/-- A tiny concrete root: one source folder with one photo, one fully
empty folder. -/
def roots_w : List RootEntry :=
  [⟨"Photos from 2020", true, [⟨⟨["Photos from 2020"], "a.jpg"⟩, FKind.file⟩]⟩,
   ⟨"Empty", true, []⟩]

/-- Whether the given source copy of the key byte-matches at least one
album copy: the semantic reading of matched versus unmatched sources in
resolve_album_duplicate. -/
def source_matches_some_album (rf : FPath → String) (als : List (String × Album))
    (albumNames : List String) (dup : String) (sc : FileCluster) : Bool :=
  albumNames.any (fun ka =>
    match alist_lookup als ka with
    | none => false
    | some alb =>
      match alist_lookup alb.photo_files dup with
      | none => false
      | some ac =>
        match ac.paths, sc.paths with
        | pa :: _, psrc :: _ => compare_two_files rf pa psrc
        | _, _ => false)

/-- C1. The clustering spec says a new cluster starts exactly when the
entry starts with neither the current cluster name nor its stem, so the
sidecar photo.json of the base photo.jpg would be appended to the
photo.jpg cluster. The code ors the two negated tests instead of anding
them, so photo.json (which starts with the stem photo but not with the
full name photo.jpg) opens a new cluster: the sorted folder
[photo.jpg, photo.json] produces two clusters, not one. -/
theorem C1_stem_sidecar_opens_new_cluster :
    stem_str "photo.jpg" = "photo" ∧
    startswith "photo.json" (stem_str "photo.jpg") = true ∧
    startswith "photo.json" "photo.jpg" = false ∧
    cluster_files_entries [⟨["f"], "photo.jpg"⟩, ⟨["f"], "photo.json"⟩] =
      [("photo.jpg", ⟨[⟨["f"], "photo.jpg"⟩]⟩),
       ("photo.json", ⟨[⟨["f"], "photo.json"⟩]⟩)] := by
  decide

/-- C2, counterexample. An already-resolved takeout (no key in more than
one source folder, no untitled album) still yields a non-empty ledger:
the album-relocation stage always appends the container create_dir. -/
theorem C2_cex_resolved_tree_nonempty_ledger :
    ((merge_files_in_albums t0_resolved.photos_source).getD []).all
        (fun kv => kv.2.length ≤ 1) = true ∧
    t0_resolved.albums.all (fun kv => !is_untitled_name kv.2.name) = true ∧
    (optimize_takeout rf_const t0_resolved false).2.2 = none ∧
    (optimize_takeout rf_const t0_resolved false).2.1 =
      [TaskItem.create_dir ⟨[], album_folder_name⟩] := by
  decide

/-- C3, counterexample. For the source-duplicate key x.jpg, resolution
completes without error, yet the pre-rename key is still present in the
album mapping of AlbumA, whose copy byte-matches no source copy: the
original key is not absent from every album mapping. -/
theorem C3_cex_unmatched_album_keeps_key :
    (resolve_album_duplicate rf_distinct "x.jpg" st_dup).2 = none ∧
    alist_lookup (resolve_album_duplicate rf_distinct "x.jpg" st_dup).1.als "AlbumA" =
      some albumA ∧
    alist_mem albumA.photo_files "x.jpg" = true := by
  decide

/-- C4, counterexample. The computed new base filename P__a.jpg is absent
from both merged indices, so per the claim the rename should proceed;
the code nonetheless fails because the renamed sidecar name
P__a.jpg.json is a key of the merged album index, and the cluster is
not re-keyed. -/
theorem C4_cex_sidecar_collision_still_fails :
    alist_mem af_sidecar "P__a.jpg" = false ∧
    alist_mem ([] : List (String × List String)) "P__a.jpg" = false ∧
    (_rename_cluster pf_sidecar "P__" "a.jpg" "P__a.jpg" [] af_sidecar []).2 =
      some "already exists in album files" ∧
    (_rename_cluster pf_sidecar "P__" "a.jpg" "P__a.jpg" [] af_sidecar []).1.2 =
      pf_sidecar := by
  decide

/-- List.any over a pointwise disjunction is the disjunction of the two
List.any runs. -/
theorem list_any_or_distrib {α : Type} (l : List α) (f g : α → Bool) :
    (l.any fun x => f x || g x) = (l.any f || l.any g) := by
  induction l with
  | nil => rfl
  | cons a t ih =>
    simp only [List.any_cons, ih]
    cases f a <;> cases g a <;> simp

/-- Closed form of _rename_cluster when the cluster is present: renames
are appended first, then the guard decides between failing with the
folder dictionary untouched and re-keying it. -/
theorem rename_cluster_eq (pf : List (String × FileCluster)) (pfx dup upd : String)
    (L : List TaskItem) (af sf : List (String × List String)) (cluster : FileCluster)
    (h : alist_lookup pf dup = some cluster) :
    _rename_cluster pf pfx dup upd L af sf =
      (if cluster.paths.any (fun p => alist_mem af (pfx ++ p.name)) then
        ((L ++ cluster.paths.map (fun p => TaskItem.rename p ⟨p.dir, pfx ++ p.name⟩), pf),
         some "already exists in album files")
      else if cluster.paths.any (fun p => alist_mem sf (pfx ++ p.name)) then
        ((L ++ cluster.paths.map (fun p => TaskItem.rename p ⟨p.dir, pfx ++ p.name⟩), pf),
         some "already exists in source files")
      else
        ((L ++ cluster.paths.map (fun p => TaskItem.rename p ⟨p.dir, pfx ++ p.name⟩),
          alist_del
            (alist_set pf upd ⟨cluster.paths.map (fun p => ⟨p.dir, pfx ++ p.name⟩)⟩) dup),
         none)) := by
  unfold _rename_cluster FileCluster.prefix_rename
  rw [h]
  simp [List.any_map, Function.comp]

/-- C4, amended. The collision guard is checked after the cluster is
looked up: the rename fails if and only if some renamed path filename of
the cluster (base or sidecar, not only the base) is already a key of the
merged album index or of the merged source index; on failure the folder
dictionary is left untouched, and otherwise the cluster is re-keyed
under the new key (written, then the old key popped). -/
theorem C4_guard_fails_iff_any_renamed_name_indexed
    (pf : List (String × FileCluster)) (pfx dup upd : String) (L : List TaskItem)
    (af sf : List (String × List String)) (cluster : FileCluster)
    (h : alist_lookup pf dup = some cluster) :
    ((_rename_cluster pf pfx dup upd L af sf).2 ≠ none ↔
      cluster.paths.any
        (fun p => alist_mem af (pfx ++ p.name) || alist_mem sf (pfx ++ p.name)) = true) ∧
    ((_rename_cluster pf pfx dup upd L af sf).2 ≠ none →
      (_rename_cluster pf pfx dup upd L af sf).1.2 = pf) ∧
    ((_rename_cluster pf pfx dup upd L af sf).2 = none →
      (_rename_cluster pf pfx dup upd L af sf).1.2 =
        alist_del
          (alist_set pf upd ⟨cluster.paths.map (fun p => ⟨p.dir, pfx ++ p.name⟩)⟩) dup) := by
  rw [rename_cluster_eq pf pfx dup upd L af sf cluster h,
      list_any_or_distrib cluster.paths (fun p => alist_mem af (pfx ++ p.name))
        (fun p => alist_mem sf (pfx ++ p.name))]
  cases haf : cluster.paths.any (fun p => alist_mem af (pfx ++ p.name)) <;>
    cases hsf : cluster.paths.any (fun p => alist_mem sf (pfx ++ p.name)) <;>
      simp [haf, hsf]

/-- C4, witness: the amended guard characterisation instantiated at the
sidecar-collision input. -/
theorem C4_guard_witness :
    ((_rename_cluster pf_sidecar "P__" "a.jpg" "P__a.jpg" [] af_sidecar []).2 ≠ none ↔
      (FileCluster.mk [⟨["S"], "a.jpg"⟩, ⟨["S"], "a.jpg.json"⟩]).paths.any
        (fun p => alist_mem af_sidecar ("P__" ++ p.name) ||
          alist_mem ([] : List (String × List String)) ("P__" ++ p.name)) = true) ∧
    ((_rename_cluster pf_sidecar "P__" "a.jpg" "P__a.jpg" [] af_sidecar []).2 ≠ none →
      (_rename_cluster pf_sidecar "P__" "a.jpg" "P__a.jpg" [] af_sidecar []).1.2 =
        pf_sidecar) ∧
    ((_rename_cluster pf_sidecar "P__" "a.jpg" "P__a.jpg" [] af_sidecar []).2 = none →
      (_rename_cluster pf_sidecar "P__" "a.jpg" "P__a.jpg" [] af_sidecar []).1.2 =
        alist_del
          (alist_set pf_sidecar "P__a.jpg"
            ⟨(FileCluster.mk [⟨["S"], "a.jpg"⟩, ⟨["S"], "a.jpg.json"⟩]).paths.map
              (fun p => ⟨p.dir, "P__" ++ p.name⟩)⟩) "a.jpg") :=
  C4_guard_fails_iff_any_renamed_name_indexed pf_sidecar "P__" "a.jpg" "P__a.jpg" []
    af_sidecar [] ⟨[⟨["S"], "a.jpg"⟩, ⟨["S"], "a.jpg.json"⟩]⟩ (by decide)

/-- C10. When the collision guard trips, the rename records of every
cluster path are already on the ledger (they are appended before the
guard runs), while the folder dictionary is unchanged: the cluster is
neither re-keyed under the new key nor removed under the old one. -/
theorem C10_failed_guard_ledger_already_extended
    (pf : List (String × FileCluster)) (pfx dup upd : String) (L : List TaskItem)
    (af sf : List (String × List String)) (cluster : FileCluster)
    (h : alist_lookup pf dup = some cluster)
    (hg : cluster.paths.any
      (fun p => alist_mem af (pfx ++ p.name) || alist_mem sf (pfx ++ p.name)) = true) :
    (_rename_cluster pf pfx dup upd L af sf).2.isSome = true ∧
    (_rename_cluster pf pfx dup upd L af sf).1.1 =
      L ++ cluster.paths.map (fun p => TaskItem.rename p ⟨p.dir, pfx ++ p.name⟩) ∧
    (_rename_cluster pf pfx dup upd L af sf).1.2 = pf := by
  rw [rename_cluster_eq pf pfx dup upd L af sf cluster h]
  rw [list_any_or_distrib cluster.paths (fun p => alist_mem af (pfx ++ p.name))
        (fun p => alist_mem sf (pfx ++ p.name))] at hg
  cases haf : cluster.paths.any (fun p => alist_mem af (pfx ++ p.name)) <;>
    cases hsf : cluster.paths.any (fun p => alist_mem sf (pfx ++ p.name)) <;>
      rw [haf, hsf] at hg <;> simp [haf, hsf] at hg ⊢

/-- C10, witness: the failed-guard state description instantiated at the
sidecar-collision input. -/
theorem C10_failed_guard_witness :
    (_rename_cluster pf_sidecar "P__" "a.jpg" "P__a.jpg" [] af_sidecar []).2.isSome = true ∧
    (_rename_cluster pf_sidecar "P__" "a.jpg" "P__a.jpg" [] af_sidecar []).1.1 =
      [] ++ (FileCluster.mk [⟨["S"], "a.jpg"⟩, ⟨["S"], "a.jpg.json"⟩]).paths.map
        (fun p => TaskItem.rename p ⟨p.dir, "P__" ++ p.name⟩) ∧
    (_rename_cluster pf_sidecar "P__" "a.jpg" "P__a.jpg" [] af_sidecar []).1.2 =
      pf_sidecar :=
  C10_failed_guard_ledger_already_extended pf_sidecar "P__" "a.jpg" "P__a.jpg" []
    af_sidecar [] ⟨[⟨["S"], "a.jpg"⟩, ⟨["S"], "a.jpg.json"⟩]⟩ (by decide) (by decide)

/-- C7. Indexing a single folder fails exactly when a subfolder is
present, a non-file entry is present, or the folder is a source folder
holding a metadata.json entry; otherwise it returns the Album value (a
pure result: the model has no effects), whose classification fields are
computed from the folder name. -/
theorem C7_index_folder_error_iff (folderName : String) (entries : List DirEntry) :
    ((∃ msg, index_folder folderName entries = Except.error msg) ↔
      (entries.any (fun p => p.kind == FKind.dir) = true ∨
       ¬ (entries.all (fun p => p.kind == FKind.file) = true) ∨
       (is_source_name folderName = true ∧
        entries.any (fun p => p.path.name == metadata_file_name) = true))) ∧
    (∀ album, index_folder folderName entries = Except.ok album →
      album.name = folderName ∧
      album.is_source = is_source_name folderName ∧
      album.is_special = special_folders.contains folderName) := by
  simp only [index_folder]
  cases h1 : entries.any (fun p => p.kind == FKind.dir)
  · cases h2 : entries.all (fun p => p.kind == FKind.file)
    · simp [h1, h2]
    · cases h3 : is_source_name folderName <;>
        cases h4 : entries.any (fun p => p.path.name == metadata_file_name) <;>
          simp [h1, h2, h3, h4]
  · simp [h1]

/-- The metadata writer is the concatenation of the per-album blocks. -/
theorem replace_eq_blocks (als : List (String × Album)) (L : List TaskItem) :
    replace_album_files_with_yaml_metadata als L =
      L ++ (als.map (fun kv => album_yaml_block kv.2)).flatten := by
  induction als generalizing L with
  | nil => simp [replace_album_files_with_yaml_metadata]
  | cons kv t ih =>
    have h1 : replace_album_files_with_yaml_metadata (kv :: t) L =
        replace_album_files_with_yaml_metadata t
          ((L ++ [TaskItem.create ⟨[kv.2.name], "album.yaml"⟩
              ⟨kv.2.name,
               (kv.2.photo_files.map (fun ckv => ckv.2.paths.map (·.name))).flatten⟩]) ++
            ((kv.2.photo_files.map (fun ckv => ckv.2.paths)).flatten).map TaskItem.delete) :=
      rfl
    rw [h1, ih]
    simp [album_yaml_block, List.append_assoc]

/-- Deletes are never descriptor creates. -/
theorem filter_yaml_delete_nil (l : List FPath) (name : String) :
    (l.map TaskItem.delete).filter (fun t => is_yaml_create_for t name) = [] := by
  induction l with
  | nil => rfl
  | cons p t ih => simp [is_yaml_create_for, ih]

/-- One album block holds exactly one descriptor create of its own album
and none of any other album. -/
theorem block_yaml_count (a : Album) (name : String) :
    ((album_yaml_block a).filter (fun t => is_yaml_create_for t name)).length =
      if a.name = name then 1 else 0 := by
  unfold album_yaml_block
  rw [List.filter_cons]
  by_cases h : a.name = name
  · subst h
    rw [if_pos (by simp [is_yaml_create_for]), filter_yaml_delete_nil]
    simp
  · rw [if_neg (by simp [is_yaml_create_for, FPath.mk.injEq, h]),
      filter_yaml_delete_nil]
    simp [h]

/-- Album blocks of albums with other names hold no descriptor create of
this name. -/
theorem blocks_yaml_count_zero (t : List (String × Album)) (name : String)
    (h : ∀ kv ∈ t, kv.2.name ≠ name) :
    (((t.map (fun kv => album_yaml_block kv.2)).flatten).filter
      (fun x => is_yaml_create_for x name)).length = 0 := by
  induction t with
  | nil => rfl
  | cons kv t ih =>
    simp only [List.map_cons, List.flatten_cons, List.filter_append, List.length_append]
    rw [block_yaml_count, if_neg (h kv (by simp)), ih (fun kv' hkv' => h kv' (by simp [hkv']))]

/-- C9. The metadata writer appends, per remaining album, exactly one
create of the album descriptor file (content: album name plus the bare
filenames of all cluster paths in cluster-then-path order) followed by
one delete per original photo file path: the produced ledger is the
input ledger followed by the per-album blocks, and under distinct album
names each album has exactly one descriptor create. -/
theorem C9_metadata_writer_block_structure (als : List (String × Album))
    (L : List TaskItem) :
    (replace_album_files_with_yaml_metadata als L =
      L ++ (als.map (fun kv => album_yaml_block kv.2)).flatten) ∧
    ((als.map (fun kv => kv.2.name)).Nodup →
      ∀ kv ∈ als,
        (((als.map (fun kv' => album_yaml_block kv'.2)).flatten).filter
          (fun t => is_yaml_create_for t kv.2.name)).length = 1) := by
  refine ⟨replace_eq_blocks als L, ?_⟩
  intro hnd kv hkv
  induction als with
  | nil => simp at hkv
  | cons kv' t ih =>
    simp only [List.map_cons, List.flatten_cons, List.filter_append, List.length_append]
    rcases List.mem_cons.mp hkv with heq | hmem
    · subst heq
      rw [block_yaml_count, if_pos rfl]
      have hz : ∀ kv'' ∈ t, kv''.2.name ≠ kv.2.name := by
        intro kv'' hkv'' hcontra
        have : kv.2.name ∈ t.map (fun p => p.2.name) :=
          List.mem_map.mpr ⟨kv'', hkv'', hcontra⟩
        exact (List.nodup_cons.mp (by simpa using hnd)).1 this
      rw [blocks_yaml_count_zero t kv.2.name hz]
    · have hnd' : (t.map (fun p => p.2.name)).Nodup :=
        (List.nodup_cons.mp (by simpa using hnd)).2
      rw [ih hnd' hmem]
      have hne : kv'.2.name ≠ kv.2.name := by
        intro hcontra
        have : kv'.2.name ∈ t.map (fun p => p.2.name) :=
          hcontra ▸ List.mem_map.mpr ⟨kv, hmem, rfl⟩
        exact (List.nodup_cons.mp (by simpa using hnd)).1 this
      rw [block_yaml_count, if_neg hne]

/-- Deleting one key leaves lookups of other keys unchanged. -/
theorem alist_lookup_del_ne {v : Type} (m : List (String × v)) (j k : String) (h : j ≠ k) :
    alist_lookup (alist_del m j) k = alist_lookup m k := by
  induction m with
  | nil => rfl
  | cons kv t ih =>
    by_cases hj : kv.1 = j
    · simp [alist_del, alist_lookup, hj, h, Ne.symm (hj ▸ h)]
    · simp only [alist_del, alist_lookup]
      rw [if_neg hj]
      by_cases hk : kv.1 = k
      · simp [alist_lookup, hk]
      · simp [alist_lookup, hk, ih]

/-- The key list of a deletion result is a sublist of the original key
list. -/
theorem alist_del_keys_sublist {v : Type} (m : List (String × v)) (j : String) :
    ((alist_del m j).map Prod.fst).Sublist (m.map Prod.fst) := by
  induction m with
  | nil => simp [alist_del]
  | cons kv t ih =>
    by_cases hj : kv.1 = j
    · simp only [alist_del, hj, if_pos rfl, List.map_cons]
      exact (List.sublist_cons_self _ _)
    · simp only [alist_del, if_neg hj, List.map_cons]
      exact ih.cons₂ kv.1

/-- Deletion preserves distinctness of keys. -/
theorem alist_del_keys_nodup {v : Type} (m : List (String × v)) (j : String)
    (h : (m.map Prod.fst).Nodup) : ((alist_del m j).map Prod.fst).Nodup :=
  (alist_del_keys_sublist m j).nodup h

/-- A key is absent exactly when it is not among the keys. -/
theorem alist_mem_false_iff {v : Type} (m : List (String × v)) (k : String) :
    alist_mem m k = false ↔ k ∉ m.map Prod.fst := by
  induction m with
  | nil => simp [alist_mem, alist_lookup]
  | cons kv t ih =>
    by_cases hk : kv.1 = k
    · simp [alist_mem, alist_lookup, hk]
    · rw [show alist_mem (kv :: t) k = alist_mem t k by
          simp [alist_mem, alist_lookup, hk], ih]
      simp [List.map_cons, List.mem_cons, Ne.symm hk]

/-- With distinct keys, a deleted key is gone. -/
theorem alist_mem_del_self {v : Type} (m : List (String × v)) (k : String)
    (h : (m.map Prod.fst).Nodup) : alist_mem (alist_del m k) k = false := by
  rw [alist_mem_false_iff]
  induction m with
  | nil => simp [alist_del]
  | cons kv t ih =>
    by_cases hk : kv.1 = k
    · simp only [alist_del, if_pos hk]
      subst hk
      exact (List.nodup_cons.mp (by simpa using h)).1
    · simp only [alist_del, if_neg hk, List.map_cons, List.mem_cons]
      push_neg
      exact ⟨Ne.symm hk, ih (List.nodup_cons.mp (by simpa using h)).2⟩

/-- Deletion never makes a key appear. -/
theorem alist_mem_del_mono {v : Type} (m : List (String × v)) (j k : String)
    (h : alist_mem m k = false) : alist_mem (alist_del m j) k = false := by
  rw [alist_mem_false_iff] at h ⊢
  intro hmem
  exact h ((alist_del_keys_sublist m j).subset hmem)

/-- Absence of a key survives a whole sequence of deletions. -/
theorem foldl_del_mem_false_pres {v : Type} (dels : List String)
    (m : List (String × v)) (k : String) (h : alist_mem m k = false) :
    alist_mem (dels.foldl (fun acc n => alist_del acc n) m) k = false := by
  induction dels generalizing m with
  | nil => exact h
  | cons d t ih => exact ih (alist_del m d) (alist_mem_del_mono m d k h)

/-- A key in the deletion schedule is gone after the deletion loop runs
(keys distinct). -/
theorem foldl_del_mem_false {v : Type} (dels : List String)
    (m : List (String × v)) (k : String) (hnd : (m.map Prod.fst).Nodup)
    (hk : k ∈ dels) :
    alist_mem (dels.foldl (fun acc n => alist_del acc n) m) k = false := by
  induction dels generalizing m with
  | nil => simp at hk
  | cons d t ih =>
    simp only [List.foldl_cons]
    by_cases hdk : d = k
    · subst hdk
      exact foldl_del_mem_false_pres t (alist_del m d) d (alist_mem_del_self m d hnd)
    · rcases List.mem_cons.mp hk with h1 | h1
      · exact absurd h1.symm hdk
      · exact ih (alist_del m d) (alist_del_keys_nodup m d hnd) h1

/-- A key outside the deletion schedule keeps its binding. -/
theorem foldl_del_lookup_not_mem {v : Type} (dels : List String)
    (m : List (String × v)) (k : String) (h : k ∉ dels) :
    alist_lookup (dels.foldl (fun acc n => alist_del acc n) m) k = alist_lookup m k := by
  induction dels generalizing m with
  | nil => rfl
  | cons d t ih =>
    simp only [List.foldl_cons]
    rw [ih (alist_del m d) (fun hm => h (by simp [hm])),
        alist_lookup_del_ne m d k (fun hdk => h (by simp [hdk]))]

/-- Splitting distinctness of the keys of a cons cell. -/
theorem nodup_keys_cons {v : Type} {kv : String × v} {t : List (String × v)}
    (h : ((kv :: t).map Prod.fst).Nodup) :
    kv.1 ∉ t.map Prod.fst ∧ (t.map Prod.fst).Nodup := by
  rw [List.map_cons] at h
  exact List.nodup_cons.mp h

/-- With distinct keys, a binding of the list is what lookup returns. -/
theorem alist_lookup_of_mem_nodup {v : Type} (m : List (String × v))
    (kv : String × v) (h : kv ∈ m) (hnd : (m.map Prod.fst).Nodup) :
    alist_lookup m kv.1 = some kv.2 := by
  induction m with
  | nil => simp at h
  | cons kv' t ih =>
    rcases List.mem_cons.mp h with h1 | h1
    · subst h1
      simp [alist_lookup]
    · have hne : kv'.1 ≠ kv.1 := by
        intro hcontra
        apply (nodup_keys_cons hnd).1
        rw [hcontra]
        exact List.mem_map.mpr ⟨kv, h1, rfl⟩
      simp only [alist_lookup, if_neg hne]
      exact ih h1 (nodup_keys_cons hnd).2

/-- C8. For every untitled album of the aggregate (keys are the album
names, distinct as in a dict): it is dropped from the aggregate and a
recursive folder delete is scheduled when every photo cluster key is
held by at least one source folder, and otherwise it is kept, its
binding unchanged, with the first blocking key reported next to the
album name. -/
theorem C8_untitled_album_pruned_iff_covered
    (ps als : List (String × Album)) (L : List TaskItem)
    (hkeys : ∀ kv ∈ als, kv.1 = kv.2.name)
    (hnd : (als.map Prod.fst).Nodup) :
    ∀ kv ∈ als, is_untitled_name kv.2.name = true →
      ((all_available_in_sources ps kv.2 = true →
          alist_mem (remove_untitled_albums ps als L).1 kv.1 = false ∧
          TaskItem.delete ⟨[], kv.2.name⟩ ∈ (remove_untitled_albums ps als L).2.1) ∧
       (all_available_in_sources ps kv.2 = false →
          alist_lookup (remove_untitled_albums ps als L).1 kv.1 = some kv.2 ∧
          ∃ k, first_missing_key ps kv.2 = some k ∧
            (k, kv.2.name) ∈ (remove_untitled_albums ps als L).2.2)) := by
  intro kv hkv hu
  have hres : remove_untitled_albums ps als L =
      (((als.filter (fun kv' => is_untitled_name kv'.2.name &&
          all_available_in_sources ps kv'.2)).map (fun kv' => kv'.2.name)).foldl
            (fun m n => alist_del m n) als,
       L ++ ((als.filter (fun kv' => is_untitled_name kv'.2.name &&
          all_available_in_sources ps kv'.2)).map (fun kv' => kv'.2.name)).map
            (fun n => TaskItem.delete ⟨[], n⟩),
       als.filterMap (fun kv' =>
         if is_untitled_name kv'.2.name then
           match first_missing_key ps kv'.2 with
           | some k => some (k, kv'.2.name)
           | none => none
         else none)) := rfl
  set td := (als.filter (fun kv' => is_untitled_name kv'.2.name &&
      all_available_in_sources ps kv'.2)).map (fun kv' => kv'.2.name) with htd
  constructor
  · intro ha
    have hmemtd : kv.2.name ∈ td := by
      rw [htd]
      exact List.mem_map.mpr ⟨kv, List.mem_filter.mpr ⟨hkv, by simp [hu, ha]⟩, rfl⟩
    refine ⟨?_, ?_⟩
    · rw [hres]
      exact foldl_del_mem_false td als kv.1 hnd (by rw [hkeys kv hkv]; exact hmemtd)
    · rw [hres]
      exact List.mem_append_right _ (List.mem_map.mpr ⟨kv.2.name, hmemtd, rfl⟩)
  · intro ha
    have hnotin : kv.1 ∉ td := by
      intro hkin
      rw [htd] at hkin
      obtain ⟨kv', hkv', hname⟩ := List.mem_map.mp hkin
      have hkv'mem := (List.mem_filter.mp hkv').1
      have hcond := (List.mem_filter.mp hkv').2
      have h1 : kv'.1 = kv.1 := by rw [hkeys kv' hkv'mem, hname]
      have h2 := alist_lookup_of_mem_nodup als kv' hkv'mem hnd
      have h3 := alist_lookup_of_mem_nodup als kv hkv hnd
      rw [h1, h3] at h2
      have heq2 : kv.2 = kv'.2 := Option.some.inj h2
      rw [← heq2, Bool.and_eq_true, ha] at hcond
      exact absurd hcond.2 (by simp)
    refine ⟨?_, ?_⟩
    · rw [hres]
      rw [foldl_del_lookup_not_mem td als kv.1 hnotin]
      exact alist_lookup_of_mem_nodup als kv hkv hnd
    · have hfm : (first_missing_key ps kv.2).isSome = true := by
        unfold first_missing_key
        rw [List.find?_isSome]
        unfold all_available_in_sources at ha
        obtain ⟨x, hx, hpx⟩ := List.all_eq_false.mp ha
        refine ⟨x.1, List.mem_map.mpr ⟨x, hx, rfl⟩, ?_⟩
        have hpx2 : (ps.any fun sv => alist_mem sv.2.photo_files x.1) = false := by
          revert hpx
          cases ps.any fun sv => alist_mem sv.2.photo_files x.1 <;> simp
        simp [hpx2]
      obtain ⟨k, hk⟩ := Option.isSome_iff_exists.mp hfm
      refine ⟨k, hk, ?_⟩
      rw [hres]
      refine List.mem_filterMap.mpr ⟨kv, hkv, ?_⟩
      simp only [hu, if_true, hk]

/-- C8, witness: a two-album aggregate, one untitled album fully covered
by the source folder (pruned), one untitled album with a blocking key
(kept and reported). -/
theorem C8_untitled_witness :
    (all_available_in_sources t0_resolved.photos_source
        { photo_files := [("a.jpg", ⟨[⟨["Untitled"], "a.jpg"⟩]⟩)]
          other_files := [], name := "Untitled",
          is_source := false, is_special := false } = true →
      alist_mem (remove_untitled_albums t0_resolved.photos_source
          [("Untitled",
            { photo_files := [("a.jpg", ⟨[⟨["Untitled"], "a.jpg"⟩]⟩)]
              other_files := [], name := "Untitled",
              is_source := false, is_special := false })] []).1 "Untitled" = false ∧
      TaskItem.delete ⟨[], "Untitled"⟩ ∈ (remove_untitled_albums t0_resolved.photos_source
          [("Untitled",
            { photo_files := [("a.jpg", ⟨[⟨["Untitled"], "a.jpg"⟩]⟩)]
              other_files := [], name := "Untitled",
              is_source := false, is_special := false })] []).2.1) ∧
    (all_available_in_sources t0_resolved.photos_source
        { photo_files := [("a.jpg", ⟨[⟨["Untitled"], "a.jpg"⟩]⟩)]
          other_files := [], name := "Untitled",
          is_source := false, is_special := false } = false →
      alist_lookup (remove_untitled_albums t0_resolved.photos_source
          [("Untitled",
            { photo_files := [("a.jpg", ⟨[⟨["Untitled"], "a.jpg"⟩]⟩)]
              other_files := [], name := "Untitled",
              is_source := false, is_special := false })] []).1 "Untitled" =
        some { photo_files := [("a.jpg", ⟨[⟨["Untitled"], "a.jpg"⟩]⟩)]
               other_files := [], name := "Untitled",
               is_source := false, is_special := false } ∧
      ∃ k, first_missing_key t0_resolved.photos_source
          { photo_files := [("a.jpg", ⟨[⟨["Untitled"], "a.jpg"⟩]⟩)]
            other_files := [], name := "Untitled",
            is_source := false, is_special := false } = some k ∧
        (k, "Untitled") ∈ (remove_untitled_albums t0_resolved.photos_source
          [("Untitled",
            { photo_files := [("a.jpg", ⟨[⟨["Untitled"], "a.jpg"⟩]⟩)]
              other_files := [], name := "Untitled",
              is_source := false, is_special := false })] []).2.2) :=
  C8_untitled_album_pruned_iff_covered t0_resolved.photos_source
    [("Untitled",
      { photo_files := [("a.jpg", ⟨[⟨["Untitled"], "a.jpg"⟩]⟩)]
        other_files := [], name := "Untitled",
        is_source := false, is_special := false })] []
    (by decide) (by decide)
    ("Untitled",
      { photo_files := [("a.jpg", ⟨[⟨["Untitled"], "a.jpg"⟩]⟩)]
        other_files := [], name := "Untitled",
        is_source := false, is_special := false })
    (by decide) (by decide)

/-- Assignment binds the assigned key. -/
theorem alist_lookup_set_self {v : Type} (m : List (String × v)) (k : String) (a : v) :
    alist_lookup (alist_set m k a) k = some a := by
  induction m with
  | nil => simp [alist_set, alist_lookup]
  | cons kv t ih =>
    by_cases hk : kv.1 = k
    · simp [alist_set, alist_lookup, hk]
    · simp only [alist_set, if_neg hk, alist_lookup]
      exact ih

/-- Assignment leaves other keys alone. -/
theorem alist_lookup_set_ne {v : Type} (m : List (String × v)) (j : String) (a : v)
    (k : String) (h : j ≠ k) :
    alist_lookup (alist_set m j a) k = alist_lookup m k := by
  induction m with
  | nil => simp [alist_set, alist_lookup, h]
  | cons kv t ih =>
    by_cases hj : kv.1 = j
    · simp only [alist_set, if_pos hj, alist_lookup]
      rw [if_neg (hj ▸ h), if_neg (hj ▸ h)]
    · simp only [alist_set, if_neg hj, alist_lookup]
      by_cases hk : kv.1 = k
      · rw [if_pos hk, if_pos hk]
      · rw [if_neg hk, if_neg hk]
        exact ih

/-- Assignment preserves distinctness of keys. -/
theorem alist_set_keys_nodup {v : Type} (m : List (String × v)) (k : String) (a : v)
    (h : (m.map Prod.fst).Nodup) : ((alist_set m k a).map Prod.fst).Nodup := by
  induction m with
  | nil => simp [alist_set]
  | cons kv t ih =>
    by_cases hk : kv.1 = k
    · simpa only [alist_set, if_pos hk, List.map_cons] using h
    · simp only [alist_set, if_neg hk, List.map_cons]
      refine List.nodup_cons.mpr ⟨?_, ih (nodup_keys_cons h).2⟩
      intro hmem
      have hsub : ((alist_set t k a).map Prod.fst) = t.map Prod.fst ∨
          ((alist_set t k a).map Prod.fst) = t.map Prod.fst ++ [k] := by
        clear hmem ih h
        induction t with
        | nil => right; simp [alist_set]
        | cons kv' t' ih' =>
          by_cases hk' : kv'.1 = k
          · left; simp [alist_set, hk']
          · rcases ih' with h' | h' <;> simp only [alist_set, if_neg hk', List.map_cons]
            · left; rw [h']
            · right; rw [h']; rfl
      rcases hsub with h' | h'
      · rw [h'] at hmem
        exact (nodup_keys_cons h).1 hmem
      · rw [h'] at hmem
        rcases List.mem_append.mp hmem with h'' | h''
        · exact (nodup_keys_cons h).1 h''
        · simp at h''
          exact hk h''

/-- The keys of a filtered association list are among the original keys. -/
theorem alist_filter_keys_sublist {v : Type} (m : List (String × v)) (p : String × v → Bool) :
    ((m.filter p).map Prod.fst).Sublist (m.map Prod.fst) :=
  (List.filter_sublist m).map Prod.fst

/-- The ok Album of index_folder carries the folder name. -/
theorem index_folder_ok_name (folderName : String) (entries : List DirEntry) (a : Album)
    (h : index_folder folderName entries = Except.ok a) : a.name = folderName := by
  unfold index_folder at h
  by_cases h1 : entries.any (fun p => p.kind == FKind.dir)
  · rw [if_pos h1] at h; cases h
  · rw [if_neg h1] at h
    by_cases h2 : !(entries.all fun p => p.kind == FKind.file)
    · rw [if_pos h2] at h; cases h
    · rw [if_neg h2] at h
      by_cases h3 : is_source_name folderName &&
          entries.any (fun p => p.path.name == metadata_file_name)
      · rw [if_pos h3] at h; cases h
      · rw [if_neg h3] at h
        cases h
        rfl

/-- When every root folder indexes, collect_albums returns collect_pure. -/
theorem collect_albums_eq_pure (roots : List RootEntry) (acc : List (String × Album))
    (hok : ∀ e ∈ roots, e.isDir = true → ∃ a, index_folder e.name e.entries = Except.ok a) :
    collect_albums acc roots = Except.ok (collect_pure acc roots) := by
  induction roots generalizing acc with
  | nil => rfl
  | cons e rest ih =>
    by_cases hdir : e.isDir
    · obtain ⟨a, ha⟩ := hok e (by simp) hdir
      simp only [collect_albums, collect_pure, hdir, Bool.not_true, if_false, ha]
      by_cases hempty : (a.photo_files.isEmpty && a.other_files.isEmpty) = true
      · rw [if_pos hempty, if_pos hempty]
        exact ih acc (fun e' he' => hok e' (by simp [he']))
      · rw [if_neg hempty, if_neg hempty]
        exact ih _ (fun e' he' => hok e' (by simp [he']))
    · have hdir' : e.isDir = false := by revert hdir; cases e.isDir <;> simp
      simp only [collect_albums, collect_pure, hdir', Bool.not_false, if_true]
      exact ih acc (fun e' he' => hok e' (by simp [he']))

/-- Keys untouched by the collection keep their binding. -/
theorem collect_pure_frame (roots : List RootEntry) (acc : List (String × Album))
    (k : String) (h : ∀ e ∈ roots, e.name ≠ k) :
    alist_lookup (collect_pure acc roots) k = alist_lookup acc k := by
  induction roots generalizing acc with
  | nil => rfl
  | cons e rest ih =>
    by_cases hdir : e.isDir
    · cases hidx : index_folder e.name e.entries with
      | error msg =>
        simp only [collect_pure, hdir, Bool.not_true, if_false, hidx]
        exact ih acc (fun e' he' => h e' (by simp [he']))
      | ok album =>
        simp only [collect_pure, hdir, Bool.not_true, if_false, hidx]
        by_cases hempty : (album.photo_files.isEmpty && album.other_files.isEmpty) = true
        · rw [if_pos hempty]
          exact ih acc (fun e' he' => h e' (by simp [he']))
        · rw [if_neg hempty, if_neg (show ¬(false = true) by simp)]
          rw [ih _ (fun e' he' => h e' (by simp [he']))]
          exact alist_lookup_set_ne acc album.name album k
            (by rw [index_folder_ok_name e.name e.entries album hidx]; exact h e (by simp))
    · have hdir' : e.isDir = false := by revert hdir; cases e.isDir <;> simp
      simp only [collect_pure, hdir', Bool.not_false, if_true]
      exact ih acc (fun e' he' => h e' (by simp [he']))

/-- A kept folder (clusters present) ends bound to its indexed Album. -/
theorem collect_pure_keep (roots : List RootEntry) (acc : List (String × Album))
    (e : RootEntry) (a : Album) (he : e ∈ roots) (hdir : e.isDir = true)
    (hidx : index_folder e.name e.entries = Except.ok a)
    (hne : (a.photo_files.isEmpty && a.other_files.isEmpty) = false)
    (hnd : (roots.map RootEntry.name).Nodup) :
    alist_lookup (collect_pure acc roots) e.name = some a := by
  induction roots generalizing acc with
  | nil => simp at he
  | cons e' rest ih =>
    have hcs : e'.name ∉ rest.map RootEntry.name ∧ (rest.map RootEntry.name).Nodup := by
      rw [List.map_cons] at hnd
      exact List.nodup_cons.mp hnd
    rcases List.mem_cons.mp he with h1 | h1
    · subst h1
      simp only [collect_pure, hdir, Bool.not_true, hidx]
      rw [if_neg (show ¬(false = true) by simp), if_neg (by simp [hne])]
      rw [collect_pure_frame rest _ e.name
        (fun e'' he'' hc => hcs.1 (hc ▸ List.mem_map.mpr ⟨e'', he'', rfl⟩))]
      rw [index_folder_ok_name e.name e.entries a hidx]
      exact alist_lookup_set_self acc e.name a
    · by_cases hdir' : e'.isDir
      · cases hidx' : index_folder e'.name e'.entries with
        | error msg =>
          simp only [collect_pure, hdir', Bool.not_true, if_false, hidx']
          exact ih acc h1 hcs.2
        | ok album =>
          simp only [collect_pure, hdir', Bool.not_true, if_false, hidx']
          by_cases hempty : (album.photo_files.isEmpty && album.other_files.isEmpty) = true
          · rw [if_pos hempty]
            exact ih acc h1 hcs.2
          · rw [if_neg hempty, if_neg (show ¬(false = true) by simp)]
            exact ih _ h1 hcs.2
      · have hdir'' : e'.isDir = false := by revert hdir'; cases e'.isDir <;> simp
        simp only [collect_pure, hdir'', Bool.not_false, if_true]
        exact ih acc h1 hcs.2

/-- A dropped folder (no clusters) leaves its name unbound. -/
theorem collect_pure_drop (roots : List RootEntry) (acc : List (String × Album))
    (e : RootEntry) (a : Album) (he : e ∈ roots) (hdir : e.isDir = true)
    (hidx : index_folder e.name e.entries = Except.ok a)
    (hempty0 : (a.photo_files.isEmpty && a.other_files.isEmpty) = true)
    (hnd : (roots.map RootEntry.name).Nodup) :
    alist_lookup (collect_pure acc roots) e.name = alist_lookup acc e.name := by
  induction roots generalizing acc with
  | nil => rfl
  | cons e' rest ih =>
    have hcs : e'.name ∉ rest.map RootEntry.name ∧ (rest.map RootEntry.name).Nodup := by
      rw [List.map_cons] at hnd
      exact List.nodup_cons.mp hnd
    rcases List.mem_cons.mp he with h1 | h1
    · subst h1
      simp only [collect_pure, hdir, Bool.not_true, hidx]
      rw [if_neg (show ¬(false = true) by simp), if_pos hempty0]
      exact collect_pure_frame rest acc e.name
        (fun e'' he'' hc => hcs.1 (hc ▸ List.mem_map.mpr ⟨e'', he'', rfl⟩))
    · have hne' : ∀ b : Album, b.name = e'.name → b.name ≠ e.name := by
        intro b hb hc
        exact hcs.1 ((hb ▸ hc) ▸ List.mem_map.mpr ⟨e, h1, rfl⟩)
      by_cases hdir' : e'.isDir
      · cases hidx' : index_folder e'.name e'.entries with
        | error msg =>
          simp only [collect_pure, hdir', Bool.not_true, if_false, hidx']
          exact ih acc h1 hcs.2
        | ok album =>
          simp only [collect_pure, hdir', Bool.not_true, if_false, hidx']
          by_cases hempty : (album.photo_files.isEmpty && album.other_files.isEmpty) = true
          · rw [if_pos hempty]
            exact ih acc h1 hcs.2
          · rw [if_neg hempty, if_neg (show ¬(false = true) by simp)]
            rw [ih _ h1 hcs.2]
            exact alist_lookup_set_ne acc album.name album e.name
              (hne' album (index_folder_ok_name e'.name e'.entries album hidx'))
      · have hdir'' : e'.isDir = false := by revert hdir'; cases e'.isDir <;> simp
        simp only [collect_pure, hdir'', Bool.not_false, if_true]
        exact ih acc h1 hcs.2

/-- Collection preserves distinctness of keys. -/
theorem collect_pure_keys_nodup (roots : List RootEntry) (acc : List (String × Album))
    (h : (acc.map Prod.fst).Nodup) :
    ((collect_pure acc roots).map Prod.fst).Nodup := by
  induction roots generalizing acc with
  | nil => exact h
  | cons e rest ih =>
    by_cases hdir : e.isDir
    · cases hidx : index_folder e.name e.entries with
      | error msg =>
        simp only [collect_pure, hdir, Bool.not_true, if_false, hidx]
        exact ih acc h
      | ok album =>
        simp only [collect_pure, hdir, Bool.not_true, if_false, hidx]
        by_cases hempty : (album.photo_files.isEmpty && album.other_files.isEmpty) = true
        · rw [if_pos hempty]
          exact ih acc h
        · rw [if_neg hempty, if_neg (show ¬(false = true) by simp)]
          exact ih _ (alist_set_keys_nodup acc album.name album h)
    · have hdir'' : e.isDir = false := by revert hdir; cases e.isDir <;> simp
      simp only [collect_pure, hdir'', Bool.not_false, if_true]
      exact ih acc h

/-- A binding satisfying the filter keeps its lookup in the filtered list. -/
theorem alist_filter_lookup_mem {v : Type} (m : List (String × v)) (p : String × v → Bool)
    (kv : String × v) (hkv : kv ∈ m) (hnd : (m.map Prod.fst).Nodup) (hp : p kv = true) :
    alist_lookup (m.filter p) kv.1 = some kv.2 :=
  alist_lookup_of_mem_nodup _ kv (List.mem_filter.mpr ⟨hkv, hp⟩)
    ((alist_filter_keys_sublist m p).nodup hnd)

/-- A binding failing the filter has no key in the filtered list. -/
theorem alist_filter_mem_false {v : Type} (m : List (String × v)) (p : String × v → Bool)
    (kv : String × v) (hkv : kv ∈ m) (hnd : (m.map Prod.fst).Nodup) (hp : p kv = false) :
    alist_mem (m.filter p) kv.1 = false := by
  rw [alist_mem_false_iff]
  intro hmem
  obtain ⟨kv', hkv', heq⟩ := List.mem_map.mp hmem
  have hkv'm := (List.mem_filter.mp hkv').1
  have hpkv' := (List.mem_filter.mp hkv').2
  have h2 := alist_lookup_of_mem_nodup m kv' hkv'm hnd
  have h3 := alist_lookup_of_mem_nodup m kv hkv hnd
  rw [heq, h3] at h2
  have hkv'eq : kv' = kv := Prod.ext heq (Option.some.inj h2).symm
  rw [hkv'eq, hp] at hpkv'
  exact absurd hpkv' (by simp)

/-- C6. With every root directory indexing successfully and distinct root
entry names: collection drops exactly the folders with no clusters and
binds every other folder name to its Album; opening the root fails
exactly when no collected album classifies as a photo source; and on
success every collected album sits in exactly one of the three takeout
mappings, chosen by is_special first and is_source second. -/
theorem C6_classifier_partition (roots : List RootEntry)
    (hok : ∀ e ∈ roots, e.isDir = true → ∃ a, index_folder e.name e.entries = Except.ok a)
    (hnd : (roots.map RootEntry.name).Nodup) :
    ∃ albums, collect_albums [] roots = Except.ok albums ∧
      ((∃ msg, open_gphotos_root_path roots = Except.error msg) ↔
        albums.filter (fun kv => kv.2.is_source && !kv.2.is_special) = []) ∧
      (∀ e ∈ roots, e.isDir = true → ∀ a, index_folder e.name e.entries = Except.ok a →
        ((a.photo_files.isEmpty && a.other_files.isEmpty) = true →
          alist_mem albums e.name = false) ∧
        ((a.photo_files.isEmpty && a.other_files.isEmpty) = false →
          alist_lookup albums e.name = some a)) ∧
      (∀ t, open_gphotos_root_path roots = Except.ok t →
        ∀ kv ∈ albums,
          (kv.2.is_special = true →
            alist_lookup t.special kv.1 = some kv.2 ∧
            alist_mem t.photos_source kv.1 = false ∧ alist_mem t.albums kv.1 = false) ∧
          (kv.2.is_special = false → kv.2.is_source = true →
            alist_lookup t.photos_source kv.1 = some kv.2 ∧
            alist_mem t.special kv.1 = false ∧ alist_mem t.albums kv.1 = false) ∧
          (kv.2.is_special = false → kv.2.is_source = false →
            alist_lookup t.albums kv.1 = some kv.2 ∧
            alist_mem t.special kv.1 = false ∧ alist_mem t.photos_source kv.1 = false)) := by
  have hcol := collect_albums_eq_pure roots [] hok
  have hopen : open_gphotos_root_path roots =
      (if ((collect_pure [] roots).filter
          (fun kv => kv.2.is_source && !kv.2.is_special)).isEmpty then
        Except.error "Need at least one photo source folder."
      else Except.ok
        { photos_source :=
            (collect_pure [] roots).filter (fun kv => kv.2.is_source && !kv.2.is_special)
          albums :=
            (collect_pure [] roots).filter (fun kv => !kv.2.is_source && !kv.2.is_special)
          special := (collect_pure [] roots).filter (fun kv => kv.2.is_special) }) := by
    unfold open_gphotos_root_path
    rw [hcol]
  refine ⟨collect_pure [] roots, hcol, ?_, ?_, ?_⟩
  · rw [hopen]
    by_cases hemp : ((collect_pure [] roots).filter
        (fun kv => kv.2.is_source && !kv.2.is_special)).isEmpty
    · rw [if_pos hemp]
      simp [List.isEmpty_iff.mp hemp]
    · rw [if_neg hemp]
      constructor
      · rintro ⟨msg, h⟩; cases h
      · intro h
        exact absurd (by rw [h]; rfl) hemp
  · intro e he hdir a hidx
    constructor
    · intro hempty
      rw [show alist_mem (collect_pure [] roots) e.name =
          (alist_lookup (collect_pure [] roots) e.name).isSome from rfl]
      rw [collect_pure_drop roots [] e a he hdir hidx hempty hnd]
      rfl
    · intro hne
      exact collect_pure_keep roots [] e a he hdir hidx hne hnd
  · intro t hok2 kv hkv
    rw [hopen] at hok2
    by_cases hemp : ((collect_pure [] roots).filter
        (fun kv => kv.2.is_source && !kv.2.is_special)).isEmpty
    · rw [if_pos hemp] at hok2; cases hok2
    · rw [if_neg hemp] at hok2
      injection hok2 with ht
      subst ht
      have hndk := collect_pure_keys_nodup roots [] (by simp)
      refine ⟨?_, ?_, ?_⟩
      · intro hsp
        exact ⟨alist_filter_lookup_mem _ _ kv hkv hndk (by simp [hsp]),
               alist_filter_mem_false _ _ kv hkv hndk (by simp [hsp]),
               alist_filter_mem_false _ _ kv hkv hndk (by simp [hsp])⟩
      · intro hsp hsrc
        exact ⟨alist_filter_lookup_mem _ _ kv hkv hndk (by simp [hsp, hsrc]),
               alist_filter_mem_false _ _ kv hkv hndk (by simp [hsp]),
               alist_filter_mem_false _ _ kv hkv hndk (by simp [hsp, hsrc])⟩
      · intro hsp hsrc
        exact ⟨alist_filter_lookup_mem _ _ kv hkv hndk (by simp [hsp, hsrc]),
               alist_filter_mem_false _ _ kv hkv hndk (by simp [hsp]),
               alist_filter_mem_false _ _ kv hkv hndk (by simp [hsp, hsrc])⟩

/-- C6, witness: the classifier characterisation instantiated at the
concrete two-folder root. -/
theorem C6_classifier_witness :
    ∃ albums, collect_albums [] roots_w = Except.ok albums ∧
      ((∃ msg, open_gphotos_root_path roots_w = Except.error msg) ↔
        albums.filter (fun kv => kv.2.is_source && !kv.2.is_special) = []) ∧
      (∀ e ∈ roots_w, e.isDir = true → ∀ a, index_folder e.name e.entries = Except.ok a →
        ((a.photo_files.isEmpty && a.other_files.isEmpty) = true →
          alist_mem albums e.name = false) ∧
        ((a.photo_files.isEmpty && a.other_files.isEmpty) = false →
          alist_lookup albums e.name = some a)) ∧
      (∀ t, open_gphotos_root_path roots_w = Except.ok t →
        ∀ kv ∈ albums,
          (kv.2.is_special = true →
            alist_lookup t.special kv.1 = some kv.2 ∧
            alist_mem t.photos_source kv.1 = false ∧ alist_mem t.albums kv.1 = false) ∧
          (kv.2.is_special = false → kv.2.is_source = true →
            alist_lookup t.photos_source kv.1 = some kv.2 ∧
            alist_mem t.special kv.1 = false ∧ alist_mem t.albums kv.1 = false) ∧
          (kv.2.is_special = false → kv.2.is_source = false →
            alist_lookup t.albums kv.1 = some kv.2 ∧
            alist_mem t.special kv.1 = false ∧ alist_mem t.photos_source kv.1 = false)) :=
  C6_classifier_partition roots_w
    (by
      intro e he hdir
      rcases List.mem_cons.mp he with heq | he2
      · subst heq; exact ⟨_, rfl⟩
      · rcases List.mem_cons.mp he2 with heq | he3
        · subst heq; exact ⟨_, rfl⟩
        · simp at he3)
    (by decide)

/-- The relocation fold never empties a non-empty ledger. -/
theorem move_fold_ne_nil (als : List (String × Album)) (L : List TaskItem) (h : L ≠ []) :
    als.foldl (fun L kv => if !kv.2.is_special then
      L ++ [TaskItem.rename ⟨[], kv.2.name⟩ ⟨[album_folder_name], kv.2.name⟩] else L) L ≠ [] := by
  induction als generalizing L with
  | nil => exact h
  | cons kv t ih =>
    simp only [List.foldl_cons]
    by_cases hsp : (!kv.2.is_special) = true
    · rw [if_pos hsp]
      exact ih _ (by simp)
    · rw [if_neg hsp]
      exact ih _ h

/-- The relocator always leaves at least the container create_dir on the
ledger. -/
theorem move_into_album_folder_ne_nil (als : List (String × Album)) (L : List TaskItem) :
    move_into_album_folder als L ≠ [] := by
  unfold move_into_album_folder
  exact move_fold_ne_nil als (L ++ [TaskItem.create_dir ⟨[], album_folder_name⟩]) (by simp)

/-- C2, amended. On an already-resolved takeout (at least one source
folder, no key held by more than one source folder, no untitled album
whose keys are all covered by sources), the full planning pass leaves
the aggregate unchanged and produces exactly the ledger of the
metadata-writer stage followed by the relocator stage; that ledger is
never empty, since the relocator always appends the album-container
create_dir. -/
theorem C2_resolved_tree_runs_only_writer_and_relocator
    (readFile : FPath → String) (tk : Takeout)
    (hsrc : tk.photos_source ≠ [])
    (hdup : ∀ kv ∈ (merge_files_in_albums tk.photos_source).getD [], kv.2.length ≤ 1)
    (hunt : ∀ kv ∈ tk.albums, is_untitled_name kv.2.name = true →
      all_available_in_sources tk.photos_source kv.2 = false) :
    optimize_takeout readFile tk false =
      (tk, move_into_album_folder tk.albums
            (replace_album_files_with_yaml_metadata tk.albums []), none) ∧
    move_into_album_folder tk.albums
      (replace_album_files_with_yaml_metadata tk.albums []) ≠ [] := by
  refine ⟨?_, move_into_album_folder_ne_nil tk.albums _⟩
  have hmps : merge_files_in_albums tk.photos_source =
      some (tk.photos_source.foldl
        (fun files kv => kv.2.photo_files.foldl
          (fun files ckv => dappend files ckv.1 kv.2.name) files) []) := by
    unfold merge_files_in_albums
    rw [if_neg (by simp [List.isEmpty_iff]; exact hsrc)]
  have hdup' : ∀ kv ∈ (tk.photos_source.foldl
      (fun files kv => kv.2.photo_files.foldl
        (fun files ckv => dappend files ckv.1 kv.2.name) files) []), kv.2.length ≤ 1 := by
    intro kv hkv
    apply hdup
    rw [hmps]
    exact hkv
  have hfilter : ((tk.photos_source.foldl
      (fun files kv => kv.2.photo_files.foldl
        (fun files ckv => dappend files ckv.1 kv.2.name) files) []).filter
          (fun kv => kv.2.length > 1)) = [] := by
    refine List.filter_eq_nil_iff.mpr ?_
    intro kv hkv
    simp only [gt_iff_lt, decide_eq_true_eq, not_lt]
    exact hdup' kv hkv
  have hres : resolve_duplicates readFile tk.photos_source tk.albums [] =
      ((tk.photos_source, tk.albums, []), none) := by
    unfold resolve_duplicates
    rw [hmps]
    simp only [hfilter, List.map_nil]
    cases merge_files_in_albums tk.albums with
    | some af => rfl
    | none => rfl
  have hto : (tk.albums.filter (fun kv' => is_untitled_name kv'.2.name &&
      all_available_in_sources tk.photos_source kv'.2)) = [] := by
    refine List.filter_eq_nil_iff.mpr ?_
    intro kv hkv
    by_cases hu : is_untitled_name kv.2.name = true
    · rw [hu, hunt kv hkv hu]
      simp
    · have hu' : is_untitled_name kv.2.name = false := by
        revert hu; cases is_untitled_name kv.2.name <;> simp
      rw [hu']
      simp
  have hremove : remove_untitled_albums tk.photos_source tk.albums [] =
      (tk.albums, [],
       tk.albums.filterMap (fun kv' =>
         if is_untitled_name kv'.2.name then
           match first_missing_key tk.photos_source kv'.2 with
           | some k => some (k, kv'.2.name)
           | none => none
         else none)) := by
    unfold remove_untitled_albums
    rw [hto]
    rfl
  have h1 : optimize_takeout readFile tk false =
      (match remove_untitled_albums tk.photos_source tk.albums [] with
       | (als2, l2, _reports) =>
         ({ photos_source := tk.photos_source, albums := als2, special := tk.special },
          move_into_album_folder als2 (replace_album_files_with_yaml_metadata als2 l2),
          (none : Option String))) := by
    unfold optimize_takeout
    rw [hres]
    rfl
  rw [h1, hremove]

/-- C2, witness: the already-resolved one-source takeout runs only the
writer and relocator stages. -/
theorem C2_resolved_witness :
    optimize_takeout rf_const t0_resolved false =
      (t0_resolved, move_into_album_folder t0_resolved.albums
        (replace_album_files_with_yaml_metadata t0_resolved.albums []), none) ∧
    move_into_album_folder t0_resolved.albums
      (replace_album_files_with_yaml_metadata t0_resolved.albums []) ≠ [] :=
  C2_resolved_tree_runs_only_writer_and_relocator rf_const t0_resolved
    (by decide) (by decide) (by decide)

/-- A state predicate preserved by every step (errors included) is
preserved by the whole fold. -/
theorem foldE_all_pres {σ α : Type} (f : σ → α → σ × Option String) (P : σ → Prop)
    (hpres : ∀ s a, P s → P (f s a).1) :
    ∀ (l : List α) (s : σ), P s → P (foldE f s l).1 := by
  intro l
  induction l with
  | nil => intro s h; exact h
  | cons a t ih =>
    intro s h
    simp only [foldE]
    cases hf : f s a with
    | mk s1 e =>
      cases e with
      | none => exact ih s1 (by have := hpres s a h; rw [hf] at this; exact this)
      | some msg => have := hpres s a h; rw [hf] at this; exact this

/-- Invariant plus extra predicate carried through a successful fold. -/
theorem foldE_ok_pres_inv {σ α : Type} (f : σ → α → σ × Option String)
    (I P : σ → Prop) (l : List α)
    (hinv : ∀ s a s', a ∈ l → f s a = (s', none) → I s → I s')
    (hpres : ∀ s a s', a ∈ l → f s a = (s', none) → I s → P s → P s') :
    ∀ (s s' : σ), foldE f s l = (s', none) → I s → P s → I s' ∧ P s' := by
  induction l with
  | nil =>
    intro s s' h hI hP
    simp only [foldE] at h
    cases h
    exact ⟨hI, hP⟩
  | cons a t ih =>
    intro s s' h hI hP
    simp only [foldE] at h
    cases hf : f s a with
    | mk s1 e =>
      rw [hf] at h
      cases e with
      | some msg => cases h
      | none =>
        exact ih (fun s₀ b s₀' hb => hinv s₀ b s₀' (by simp [hb]))
          (fun s₀ b s₀' hb => hpres s₀ b s₀' (by simp [hb])) s1 s' h
          (hinv s a s1 (by simp) hf hI) (hpres s a s1 (by simp) hf hI hP)

/-- Per-element postcondition of a successful fold: established by the
element's own step and preserved by every later successful step. -/
theorem foldE_ok_forall_inv {σ α : Type} (f : σ → α → σ × Option String)
    (I : σ → Prop) (Q : α → σ → Prop) (l : List α)
    (hinv : ∀ s a s', a ∈ l → f s a = (s', none) → I s → I s')
    (hstep : ∀ s a s', a ∈ l → f s a = (s', none) → I s → Q a s')
    (hpres : ∀ s a s' b, a ∈ l → b ∈ l → f s a = (s', none) → I s → Q b s → Q b s') :
    ∀ (s s' : σ), foldE f s l = (s', none) → I s → ∀ a ∈ l, Q a s' := by
  induction l with
  | nil => intro s s' h hI a ha; simp at ha
  | cons x t ih =>
    intro s s' h hI a ha
    simp only [foldE] at h
    cases hf : f s x with
    | mk s1 e =>
      rw [hf] at h
      cases e with
      | some msg => cases h
      | none =>
        rcases List.mem_cons.mp ha with heq | hat
        · subst heq
          have hQ : Q a s1 := hstep s a s1 (by simp) hf hI
          have hI1 : I s1 := hinv s a s1 (by simp) hf hI
          exact (foldE_ok_pres_inv f I (Q a) t
            (fun s₀ b s₀' hb => hinv s₀ b s₀' (by simp [hb]))
            (fun s₀ b s₀' hb hfb hIb => hpres s₀ b s₀' a (by simp [hb]) (by simp) hfb hIb)
            s1 s' h hI1 hQ).2
        · exact ih (fun s₀ b s₀' hb => hinv s₀ b s₀' (by simp [hb]))
            (fun s₀ b s₀' hb => hstep s₀ b s₀' (by simp [hb]))
            (fun s₀ b s₀' c hb hc => hpres s₀ b s₀' c (by simp [hb]) (by simp [hc]))
            s1 s' h (hinv s x s1 (by simp) hf hI) a hat

/-- A key is present exactly when it is among the keys. -/
theorem alist_mem_true_iff {v : Type} (m : List (String × v)) (k : String) :
    alist_mem m k = true ↔ k ∈ m.map Prod.fst := by
  constructor
  · intro h
    by_contra hc
    rw [← alist_mem_false_iff] at hc
    rw [h] at hc
    cases hc
  · intro h
    cases hm : alist_mem m k
    · exact absurd h (alist_mem_false_iff m k |>.mp hm)
    · rfl

/-- Members of an assignment result: an old binding or the new pair. -/
theorem alist_set_mem_cases {v : Type} (m : List (String × v)) (k : String) (a : v)
    (kv : String × v) (h : kv ∈ alist_set m k a) : kv ∈ m ∨ kv = (k, a) := by
  induction m with
  | nil =>
    simp only [alist_set] at h
    right
    simpa using h
  | cons kv' t ih =>
    by_cases hk : kv'.1 = k
    · simp only [alist_set, if_pos hk] at h
      rcases List.mem_cons.mp h with heq | hmem
      · right; rw [heq, ← hk]
      · left; exact List.mem_cons.mpr (Or.inr hmem)
    · simp only [alist_set, if_neg hk] at h
      rcases List.mem_cons.mp h with heq | hmem
      · left; exact List.mem_cons.mpr (Or.inl heq)
      · rcases ih hmem with h' | h'
        · left; exact List.mem_cons.mpr (Or.inr h')
        · right; exact h'

/-- dget preserves distinctness of keys. -/
theorem dget_keys_nodup {v : Type} (l : List (String × List v)) (key : String)
    (h : (l.map Prod.fst).Nodup) : (((dget l key).2).map Prod.fst).Nodup := by
  unfold dget
  cases hl : alist_lookup l key with
  | some a => exact h
  | none =>
    simp only [List.map_append, List.map_cons, List.map_nil]
    rw [List.nodup_append]
    refine ⟨h, by simp, ?_⟩
    intro x hx
    simp only [List.mem_singleton]
    intro hc
    subst hc
    have hmm := (alist_mem_true_iff l x).mpr hx
    rw [show alist_mem l x = false by simp [alist_mem, hl]] at hmm
    cases hmm

/-- _rename_cluster raises KeyError when the key is unbound, leaving
ledger and folder dictionary untouched. -/
theorem rename_cluster_keyerr (pf : List (String × FileCluster)) (pfx dup upd : String)
    (L : List TaskItem) (af sf : List (String × List String))
    (h : alist_lookup pf dup = none) :
    _rename_cluster pf pfx dup upd L af sf = ((L, pf), some "KeyError: cluster to rename") := by
  unfold _rename_cluster
  rw [h]

/-- rename_in_source when the folder is unbound: a KeyError. -/
theorem rename_in_source_eq_none (fn pfx dup upd : String) (st : RSt)
    (hl : alist_lookup st.ps fn = none) :
    rename_in_source fn pfx dup upd st = (st, some "KeyError: source folder") := by
  unfold rename_in_source
  rw [hl]

/-- rename_in_album when the folder is unbound: a KeyError. -/
theorem rename_in_album_eq_none (fn pfx dup upd : String) (st : RSt)
    (hl : alist_lookup st.als fn = none) :
    rename_in_album fn pfx dup upd st = (st, some "KeyError: album folder") := by
  unfold rename_in_album
  rw [hl]

/-- rename_in_source unfolded when the folder is bound. -/
theorem rename_in_source_eq_some (fn pfx dup upd : String) (st : RSt) (alb : Album)
    (hl : alist_lookup st.ps fn = some alb) :
    rename_in_source fn pfx dup upd st =
      (match _rename_cluster alb.photo_files pfx dup upd st.ledger st.af st.sf with
       | ((ledger', pf'), none) =>
         ({ st with ps := alist_set st.ps fn { alb with photo_files := pf' },
                    ledger := ledger' }, none)
       | ((ledger', _), some e) => ({ st with ledger := ledger' }, some e)) := by
  unfold rename_in_source
  rw [hl]

/-- rename_in_album unfolded when the folder is bound. -/
theorem rename_in_album_eq_some (fn pfx dup upd : String) (st : RSt) (alb : Album)
    (hl : alist_lookup st.als fn = some alb) :
    rename_in_album fn pfx dup upd st =
      (match _rename_cluster alb.photo_files pfx dup upd st.ledger st.af st.sf with
       | ((ledger', pf'), none) =>
         ({ st with als := alist_set st.als fn { alb with photo_files := pf' },
                    ledger := ledger' }, none)
       | ((ledger', _), some e) => ({ st with ledger := ledger' }, some e)) := by
  unfold rename_in_album
  rw [hl]

/-- Effects of one source-folder rename on the state, whatever its
outcome: albums and merged indices untouched, ledger only appended to,
and every other source folder binding unchanged. -/
theorem rename_in_source_effects (fn pfx dup upd : String) (st st1 : RSt) (e : Option String)
    (h : rename_in_source fn pfx dup upd st = (st1, e)) :
    st1.als = st.als ∧ st1.af = st.af ∧ st1.sf = st.sf ∧
    (∃ d, st1.ledger = st.ledger ++ d) ∧
    (∀ n, n ≠ fn → alist_lookup st1.ps n = alist_lookup st.ps n) := by
  cases hl : alist_lookup st.ps fn with
  | none =>
    rw [rename_in_source_eq_none fn pfx dup upd st hl] at h
    cases h
    exact ⟨rfl, rfl, rfl, ⟨[], by simp⟩, fun n hn => rfl⟩
  | some alb =>
    rw [rename_in_source_eq_some fn pfx dup upd st alb hl] at h
    cases hc : alist_lookup alb.photo_files dup with
    | none =>
      rw [rename_cluster_keyerr alb.photo_files pfx dup upd st.ledger st.af st.sf hc] at h
      cases h
      exact ⟨rfl, rfl, rfl, ⟨[], by simp⟩, fun n hn => rfl⟩
    | some c =>
      rw [rename_cluster_eq alb.photo_files pfx dup upd st.ledger st.af st.sf c hc] at h
      by_cases haf : c.paths.any (fun p => alist_mem st.af (pfx ++ p.name)) = true
      · rw [if_pos haf] at h
        cases h
        exact ⟨rfl, rfl, rfl, ⟨_, rfl⟩, fun n hn => rfl⟩
      · rw [if_neg haf] at h
        by_cases hsf : c.paths.any (fun p => alist_mem st.sf (pfx ++ p.name)) = true
        · rw [if_pos hsf] at h
          cases h
          exact ⟨rfl, rfl, rfl, ⟨_, rfl⟩, fun n hn => rfl⟩
        · rw [if_neg hsf] at h
          cases h
          exact ⟨rfl, rfl, rfl, ⟨_, rfl⟩,
            fun n hn => alist_lookup_set_ne st.ps fn _ n (Ne.symm hn)⟩

/-- Success of one source-folder rename, characterised: the folder held
the cluster, its dictionary is re-keyed, and the renames are appended. -/
theorem rename_in_source_ok (fn pfx dup upd : String) (st st1 : RSt)
    (h : rename_in_source fn pfx dup upd st = (st1, none)) :
    ∃ alb c, alist_lookup st.ps fn = some alb ∧
      alist_lookup alb.photo_files dup = some c ∧
      st1 = { st with
        ps := alist_set st.ps fn
          { alb with photo_files :=
              alist_del (alist_set alb.photo_files upd
                ⟨c.paths.map (fun p => ⟨p.dir, pfx ++ p.name⟩)⟩) dup }
        ledger := st.ledger ++
          c.paths.map (fun p => TaskItem.rename p ⟨p.dir, pfx ++ p.name⟩) } := by
  cases hl : alist_lookup st.ps fn with
  | none => rw [rename_in_source_eq_none fn pfx dup upd st hl] at h; cases h
  | some alb =>
    rw [rename_in_source_eq_some fn pfx dup upd st alb hl] at h
    cases hc : alist_lookup alb.photo_files dup with
    | none =>
      rw [rename_cluster_keyerr alb.photo_files pfx dup upd st.ledger st.af st.sf hc] at h
      cases h
    | some c =>
      rw [rename_cluster_eq alb.photo_files pfx dup upd st.ledger st.af st.sf c hc] at h
      by_cases haf : c.paths.any (fun p => alist_mem st.af (pfx ++ p.name)) = true
      · rw [if_pos haf] at h; cases h
      · rw [if_neg haf] at h
        by_cases hsf : c.paths.any (fun p => alist_mem st.sf (pfx ++ p.name)) = true
        · rw [if_pos hsf] at h; cases h
        · rw [if_neg hsf] at h
          cases h
          exact ⟨alb, c, rfl, hc, rfl⟩

/-- Failure of one source-folder rename when the folder lacks the key. -/
theorem rename_in_source_err_of_no_key (fn pfx dup upd : String) (st : RSt) (alb : Album)
    (hl : alist_lookup st.ps fn = some alb)
    (hc : alist_lookup alb.photo_files dup = none) :
    rename_in_source fn pfx dup upd st =
      ({ st with ledger := st.ledger }, some "KeyError: cluster to rename") := by
  rw [rename_in_source_eq_some fn pfx dup upd st alb hl,
      rename_cluster_keyerr alb.photo_files pfx dup upd st.ledger st.af st.sf hc]

/-- Effects of one album-folder rename: sources and merged indices
untouched, ledger only appended to. -/
theorem rename_in_album_effects (fn pfx dup upd : String) (st st1 : RSt) (e : Option String)
    (h : rename_in_album fn pfx dup upd st = (st1, e)) :
    st1.ps = st.ps ∧ st1.af = st.af ∧ st1.sf = st.sf ∧
    (∃ d, st1.ledger = st.ledger ++ d) := by
  cases hl : alist_lookup st.als fn with
  | none =>
    rw [rename_in_album_eq_none fn pfx dup upd st hl] at h
    cases h
    exact ⟨rfl, rfl, rfl, ⟨[], by simp⟩⟩
  | some alb =>
    rw [rename_in_album_eq_some fn pfx dup upd st alb hl] at h
    cases hc : alist_lookup alb.photo_files dup with
    | none =>
      rw [rename_cluster_keyerr alb.photo_files pfx dup upd st.ledger st.af st.sf hc] at h
      cases h
      exact ⟨rfl, rfl, rfl, ⟨[], by simp⟩⟩
    | some c =>
      rw [rename_cluster_eq alb.photo_files pfx dup upd st.ledger st.af st.sf c hc] at h
      by_cases haf : c.paths.any (fun p => alist_mem st.af (pfx ++ p.name)) = true
      · rw [if_pos haf] at h
        cases h
        exact ⟨rfl, rfl, rfl, ⟨_, rfl⟩⟩
      · rw [if_neg haf] at h
        by_cases hsf : c.paths.any (fun p => alist_mem st.sf (pfx ++ p.name)) = true
        · rw [if_pos hsf] at h
          cases h
          exact ⟨rfl, rfl, rfl, ⟨_, rfl⟩⟩
        · rw [if_neg hsf] at h
          cases h
          exact ⟨rfl, rfl, rfl, ⟨_, rfl⟩⟩

/-- A lookup hit is a binding of the list. -/
theorem alist_lookup_mem {v : Type} (m : List (String × v)) (k : String) (a : v)
    (h : alist_lookup m k = some a) : (k, a) ∈ m := by
  induction m with
  | nil => cases h
  | cons kv t ih =>
    by_cases hk : kv.1 = k
    · simp only [alist_lookup, if_pos hk] at h
      cases h
      rw [show ((k, kv.2) : String × v) = kv by
        rw [Prod.ext_iff]; exact ⟨hk.symm, rfl⟩]
      exact List.mem_cons_self kv t
    · simp only [alist_lookup, if_neg hk] at h
      exact List.mem_cons.mpr (Or.inr (ih h))

/-- A present key has a binding. -/
theorem alist_mem_exists_pair {v : Type} (m : List (String × v)) (k : String)
    (h : alist_mem m k = true) : ∃ a, (k, a) ∈ m := by
  unfold alist_mem at h
  cases hl : alist_lookup m k with
  | none => rw [hl] at h; cases h
  | some a => exact ⟨a, alist_lookup_mem m k a hl⟩

/-- The cluster lookups of the dict comprehensions: the keys of the
result are the requested folder names, and each cluster comes from the
folder the lookup found. -/
theorem lookup_clusters_spec (folders : List (String × Album)) (names : List String)
    (dup : String) (l : List (String × FileCluster))
    (h : lookup_clusters folders names dup = Except.ok l) :
    l.map Prod.fst = names ∧
    ∀ kv ∈ l, ∃ alb, alist_lookup folders kv.1 = some alb ∧
      alist_lookup alb.photo_files dup = some kv.2 := by
  induction names generalizing l with
  | nil =>
    simp only [lookup_clusters] at h
    cases h
    exact ⟨rfl, by simp⟩
  | cons n rest ih =>
    simp only [lookup_clusters] at h
    split at h
    · cases h
    · rename_i alb hf
      split at h
      · cases h
      · rename_i c hc
        split at h
        · cases h
        · rename_i l' hrest
          cases h
          obtain ⟨hmap, hmem⟩ := ih l' hrest
          refine ⟨by simp [hmap], ?_⟩
          intro kv hkv
          rcases List.mem_cons.mp hkv with heq | hmem'
          · subst heq
            exact ⟨alb, hf, hc⟩
          · exact hmem kv hmem'


/-- The keys of an assignment result: unchanged, or with the fresh key
appended. -/
theorem alist_set_keys_cases {v : Type} (m : List (String × v)) (k : String) (a : v) :
    (alist_set m k a).map Prod.fst = m.map Prod.fst ∨
    (alist_set m k a).map Prod.fst = m.map Prod.fst ++ [k] := by
  induction m with
  | nil => right; simp [alist_set]
  | cons kv t ih =>
    by_cases hk : kv.1 = k
    · left; simp [alist_set, hk]
    · rcases ih with h' | h' <;> simp only [alist_set, if_neg hk, List.map_cons]
      · left; rw [h']
      · right; rw [h']; rfl

/-- Assigning over a freshly appended binding of an absent key. -/
theorem alist_set_append_fresh {v : Type} (m : List (String × v)) (k : String) (a b : v)
    (hl : alist_lookup m k = none) :
    alist_set (m ++ [(k, b)]) k a = m ++ [(k, a)] := by
  induction m with
  | nil => simp [alist_set]
  | cons kv t ih =>
    simp only [alist_lookup] at hl
    by_cases hk : kv.1 = k
    · rw [if_pos hk] at hl; cases hl
    · rw [if_neg hk] at hl
      show alist_set (kv :: (t ++ [(k, b)])) k a = kv :: (t ++ [(k, a)])
      simp only [alist_set, if_neg hk]
      rw [ih hl]

/-- dappend on a bound key appends to its list in place. -/
theorem dappend_eq_some {v : Type} (m : List (String × List v)) (k : String) (a : v)
    (old : List v) (hl : alist_lookup m k = some old) :
    dappend m k a = alist_set m k (old ++ [a]) := by
  unfold dappend dget
  rw [hl]

/-- dappend on an unbound key appends a fresh singleton binding. -/
theorem dappend_eq_none {v : Type} (m : List (String × List v)) (k : String) (a : v)
    (hl : alist_lookup m k = none) :
    dappend m k a = m ++ [(k, [a])] := by
  unfold dappend dget
  rw [hl]
  exact alist_set_append_fresh m k [a] [] hl

/-- The keys of a defaultdict append are the old keys, possibly with the
new key at the end. -/
theorem dappend_keys_subset {v : Type} (m : List (String × List v)) (k : String) (a : v) :
    ∀ j, j ∈ (dappend m k a).map Prod.fst → j ∈ m.map Prod.fst ∨ j = k := by
  intro j hj
  cases hl : alist_lookup m k with
  | some old =>
    rw [dappend_eq_some m k a old hl] at hj
    rcases alist_set_keys_cases m k (old ++ [a]) with h' | h'
    · rw [h'] at hj; exact Or.inl hj
    · rw [h'] at hj
      rcases List.mem_append.mp hj with h'' | h''
      · exact Or.inl h''
      · right; simpa using h''
  | none =>
    rw [dappend_eq_none m k a hl] at hj
    simp only [List.map_append, List.map_cons, List.map_nil] at hj
    rcases List.mem_append.mp hj with h'' | h''
    · exact Or.inl h''
    · right; simpa using h''

/-- Keys of the inner match-building loop stay within the old keys and
the source folder names. -/
theorem build_matches_inner_keys (rf : FPath → String) (ka : String) (ac : FileCluster)
    (sms : List (String × FileCluster)) (m m' : List (String × List String))
    (h : build_matches_inner rf ka ac sms m = Except.ok m') :
    ∀ j, j ∈ m'.map Prod.fst → j ∈ m.map Prod.fst ∨ j ∈ sms.map Prod.fst := by
  induction sms generalizing m with
  | nil =>
    simp only [build_matches_inner] at h
    cases h
    exact fun j hj => Or.inl hj
  | cons ksa rest ih =>
    simp only [build_matches_inner] at h
    split at h
    · rename_i pa pas psrc psrcs hac hsc
      intro j hj
      by_cases hcmp : compare_two_files rf pa psrc = true
      · rw [if_pos hcmp] at h
        rcases ih (dappend m ksa.1 ka) h j hj with h' | h'
        · rcases dappend_keys_subset m ksa.1 ka j h' with h'' | h''
          · exact Or.inl h''
          · right; rw [h'']; simp
        · right; simp [h']
      · rw [if_neg hcmp] at h
        rcases ih m h j hj with h' | h'
        · exact Or.inl h'
        · right; simp [h']
    · cases h

/-- Keys of the built match table are source folder names. -/
theorem build_matches_keys (rf : FPath → String) (ams sms : List (String × FileCluster))
    (m m' : List (String × List String))
    (h : build_matches rf ams sms m = Except.ok m') :
    ∀ j, j ∈ m'.map Prod.fst → j ∈ m.map Prod.fst ∨ j ∈ sms.map Prod.fst := by
  induction ams generalizing m with
  | nil =>
    simp only [build_matches] at h
    cases h
    exact fun j hj => Or.inl hj
  | cons kac rest ih =>
    simp only [build_matches] at h
    split at h
    · cases h
    · rename_i m1 hbi
      intro j hj
      rcases ih m1 h j hj with h' | h'
      · exact build_matches_inner_keys rf kac.1 kac.2 sms m m1 hbi j h'
      · exact Or.inr h'

/-- Inversion of a successful resolve_album_duplicate run: the collected
clusters, the match table, the two rename loops and the final merged
index deletions, step by step. -/
theorem resolve_album_duplicate_ok_inv (rf : FPath → String) (dup : String) (st st' : RSt)
    (h : resolve_album_duplicate rf dup st = (st', none)) :
    ∃ ams sms matched st3 st4,
      lookup_clusters st.als (dget st.af dup).1 dup = Except.ok ams ∧
      lookup_clusters st.ps (dget st.sf dup).1 dup = Except.ok sms ∧
      build_matches rf ams sms [] = Except.ok matched ∧
      foldE (step_match dup)
        { st with af := (dget st.af dup).2, sf := (dget st.sf dup).2 } matched =
          (st3, none) ∧
      foldE (step_unmatched dup) st3
        ((sms.map Prod.fst).filter (fun k => !alist_mem matched k)) = (st4, none) ∧
      st' = { st4 with af := alist_del st4.af dup, sf := alist_del st4.sf dup } := by
  unfold resolve_album_duplicate at h
  split at h
  rename_i albumNames af' hdg1
  simp only [] at h
  split at h
  · cases h
  · rename_i ams hams
    split at h
    · cases h
    · rename_i sms hsms
      split at h
      · cases h
      · rename_i matched hmatched
        split at h
        · cases h
        · rename_i st3 hfold1
          split at h
          · cases h
          · rename_i st4 hfold2
            cases h
            have h1 : (dget st.af dup).1 = albumNames := by rw [hdg1]
            have h2 : (dget st.af dup).2 = af' := by rw [hdg1]
            refine ⟨ams, sms, matched, st3, st4, ?_, hsms, hmatched, ?_, hfold2, rfl⟩
            · rw [h1]; exact hams
            · rw [h2]; exact hfold1

/-- step_unmatched is exactly the source rename under the folder-name
prefix. -/
theorem step_unmatched_eq (dup : String) (st : RSt) (n : String) :
    step_unmatched dup st n =
      rename_in_source n (underscorify n ++ "__") dup
        ((underscorify n ++ "__") ++ dup) st := rfl

/-- Inversion of a successful matches-loop iteration: the source rename
succeeded, then every matching album rename succeeded. -/
theorem step_match_ok_inv (dup : String) (st st1 : RSt) (kv : String × List String)
    (h : step_match dup st kv = (st1, none)) :
    ∃ stA, rename_in_source kv.1 (underscorify kv.1 ++ "__") dup
        ((underscorify kv.1 ++ "__") ++ dup) st = (stA, none) ∧
      foldE (fun s ka => rename_in_album ka (underscorify kv.1 ++ "__") dup
        ((underscorify kv.1 ++ "__") ++ dup) s) stA kv.2 = (st1, none) := by
  unfold step_match at h
  simp only [] at h
  split at h
  · cases h
  · rename_i stA hr
    exact ⟨stA, hr, h⟩

/-- The ps component of a matches-loop iteration is whatever the source
rename produced (the album renames never touch it). -/
theorem step_match_ps (dup : String) (st st1 : RSt) (e : Option String)
    (kv : String × List String) (h : step_match dup st kv = (st1, e)) :
    ∃ stA eA, rename_in_source kv.1 (underscorify kv.1 ++ "__") dup
        ((underscorify kv.1 ++ "__") ++ dup) st = (stA, eA) ∧ st1.ps = stA.ps := by
  unfold step_match at h
  simp only [] at h
  split at h
  · rename_i stA e' hr
    cases h
    exact ⟨_, _, hr, rfl⟩
  · rename_i stA hr
    refine ⟨stA, none, hr, ?_⟩
    have hpres := foldE_all_pres
      (fun s ka => rename_in_album ka (underscorify kv.1 ++ "__") dup
        ((underscorify kv.1 ++ "__") ++ dup) s)
      (fun s => s.ps = stA.ps)
      (fun s a hps => by
        obtain ⟨hps', _, _, _⟩ := rename_in_album_effects a (underscorify kv.1 ++ "__") dup
          ((underscorify kv.1 ++ "__") ++ dup) s _ _ Prod.mk.eta.symm
        rw [hps', hps])
      kv.2 stA rfl
    rw [h] at hpres
    exact hpres

/-- On error, the source rename leaves the source dictionary unchanged. -/
theorem rename_in_source_err_ps (fn pfx dup upd : String) (st st1 : RSt) (msg : String)
    (h : rename_in_source fn pfx dup upd st = (st1, some msg)) : st1.ps = st.ps := by
  cases hl : alist_lookup st.ps fn with
  | none =>
    rw [rename_in_source_eq_none fn pfx dup upd st hl] at h
    cases h
    rfl
  | some alb =>
    rw [rename_in_source_eq_some fn pfx dup upd st alb hl] at h
    cases hc : alist_lookup alb.photo_files dup with
    | none =>
      rw [rename_cluster_keyerr alb.photo_files pfx dup upd st.ledger st.af st.sf hc] at h
      cases h
      rfl
    | some c =>
      rw [rename_cluster_eq alb.photo_files pfx dup upd st.ledger st.af st.sf c hc] at h
      by_cases haf : c.paths.any (fun p => alist_mem st.af (pfx ++ p.name)) = true
      · rw [if_pos haf] at h
        cases h
        rfl
      · rw [if_neg haf] at h
        by_cases hsf : c.paths.any (fun p => alist_mem st.sf (pfx ++ p.name)) = true
        · rw [if_pos hsf] at h
          cases h
          rfl
        · rw [if_neg hsf] at h
          cases h

/-- A source rename preserves distinctness of the per-folder photo keys. -/
theorem rename_in_source_pf_nodup (fn pfx dup upd : String) (st st1 : RSt) (e : Option String)
    (h : rename_in_source fn pfx dup upd st = (st1, e))
    (hI : ∀ kv ∈ st.ps, (kv.2.photo_files.map Prod.fst).Nodup) :
    ∀ kv ∈ st1.ps, (kv.2.photo_files.map Prod.fst).Nodup := by
  cases e with
  | some msg =>
    rw [rename_in_source_err_ps fn pfx dup upd st st1 msg h]
    exact hI
  | none =>
    obtain ⟨alb, c, hl, hc, hst1⟩ := rename_in_source_ok fn pfx dup upd st st1 h
    subst hst1
    intro kv hkv
    rcases alist_set_mem_cases st.ps fn _ kv hkv with hold | hnew
    · exact hI kv hold
    · rw [hnew]
      exact alist_del_keys_nodup _ dup
        (alist_set_keys_nodup alb.photo_files upd _
          (hI (fn, alb) (alist_lookup_mem st.ps fn alb hl)))

/-- A successful source rename removes the duplicate key from the folder
it renamed. -/
theorem rename_in_source_ok_Qfree (fn pfx dup upd : String) (st st1 : RSt)
    (h : rename_in_source fn pfx dup upd st = (st1, none))
    (hI : ∀ kv ∈ st.ps, (kv.2.photo_files.map Prod.fst).Nodup) :
    ∀ a, alist_lookup st1.ps fn = some a → alist_mem a.photo_files dup = false := by
  obtain ⟨alb, c, hl, hc, hst1⟩ := rename_in_source_ok fn pfx dup upd st st1 h
  subst hst1
  intro a ha
  replace ha : alist_lookup (alist_set st.ps fn
      { alb with photo_files :=
          alist_del (alist_set alb.photo_files upd
            ⟨c.paths.map (fun p => ⟨p.dir, pfx ++ p.name⟩)⟩) dup }) fn = some a := ha
  rw [alist_lookup_set_self] at ha
  cases ha
  exact alist_mem_del_self _ dup
    (alist_set_keys_nodup alb.photo_files upd _
      (hI (fn, alb) (alist_lookup_mem st.ps fn alb hl)))

/-- A successful source rename keeps the duplicate key absent wherever it
already was absent. -/
theorem rename_in_source_pres_Qfree (fn pfx dup upd : String) (st st1 : RSt) (n : String)
    (h : rename_in_source fn pfx dup upd st = (st1, none))
    (hI : ∀ kv ∈ st.ps, (kv.2.photo_files.map Prod.fst).Nodup)
    (hQ : ∀ a, alist_lookup st.ps n = some a → alist_mem a.photo_files dup = false) :
    ∀ a, alist_lookup st1.ps n = some a → alist_mem a.photo_files dup = false := by
  by_cases hn : n = fn
  · subst hn
    exact rename_in_source_ok_Qfree n pfx dup upd st st1 h hI
  · intro a ha
    obtain ⟨_, _, _, _, hframe⟩ := rename_in_source_effects fn pfx dup upd st st1 none h
    rw [hframe n hn] at ha
    exact hQ a ha

/-- A matches-loop iteration preserves distinctness of per-folder keys. -/
theorem step_match_pf_nodup (dup : String) (st st1 : RSt) (kv : String × List String)
    (h : step_match dup st kv = (st1, none))
    (hI : ∀ kv' ∈ st.ps, (kv'.2.photo_files.map Prod.fst).Nodup) :
    ∀ kv' ∈ st1.ps, (kv'.2.photo_files.map Prod.fst).Nodup := by
  obtain ⟨stA, hr, hfold⟩ := step_match_ok_inv dup st st1 kv h
  obtain ⟨stA', eA', hr', hps⟩ := step_match_ps dup st st1 none kv h
  rw [hr] at hr'
  cases hr'
  rw [hps]
  exact rename_in_source_pf_nodup kv.1 _ dup _ st stA none hr hI

/-- A matches-loop iteration removes the duplicate key from its own
source folder. -/
theorem step_match_est_Qfree (dup : String) (st st1 : RSt) (kv : String × List String)
    (h : step_match dup st kv = (st1, none))
    (hI : ∀ kv' ∈ st.ps, (kv'.2.photo_files.map Prod.fst).Nodup) :
    ∀ a, alist_lookup st1.ps kv.1 = some a → alist_mem a.photo_files dup = false := by
  obtain ⟨stA, hr, hfold⟩ := step_match_ok_inv dup st st1 kv h
  obtain ⟨stA', eA', hr', hps⟩ := step_match_ps dup st st1 none kv h
  rw [hr] at hr'
  cases hr'
  intro a ha
  rw [hps] at ha
  exact rename_in_source_ok_Qfree kv.1 _ dup _ st stA hr hI a ha

/-- A matches-loop iteration keeps the duplicate key absent wherever it
already was. -/
theorem step_match_pres_Qfree (dup : String) (st st1 : RSt) (kv : String × List String)
    (n : String) (h : step_match dup st kv = (st1, none))
    (hI : ∀ kv' ∈ st.ps, (kv'.2.photo_files.map Prod.fst).Nodup)
    (hQ : ∀ a, alist_lookup st.ps n = some a → alist_mem a.photo_files dup = false) :
    ∀ a, alist_lookup st1.ps n = some a → alist_mem a.photo_files dup = false := by
  obtain ⟨stA, hr, hfold⟩ := step_match_ok_inv dup st st1 kv h
  obtain ⟨stA', eA', hr', hps⟩ := step_match_ps dup st st1 none kv h
  rw [hr] at hr'
  cases hr'
  intro a ha
  rw [hps] at ha
  exact rename_in_source_pres_Qfree kv.1 _ dup _ st stA n hr hI hQ a ha

/-- A successful matches-loop iteration never touches the merged
indices. -/
theorem step_match_af_sf (dup : String) (st st1 : RSt) (kv : String × List String)
    (h : step_match dup st kv = (st1, none)) :
    st1.af = st.af ∧ st1.sf = st.sf := by
  obtain ⟨stA, hr, hfold⟩ := step_match_ok_inv dup st st1 kv h
  obtain ⟨_, hafA, hsfA, _, _⟩ := rename_in_source_effects _ _ _ _ st stA none hr
  have hpres := foldE_all_pres
    (fun s ka => rename_in_album ka (underscorify kv.1 ++ "__") dup
      ((underscorify kv.1 ++ "__") ++ dup) s)
    (fun s => s.af = stA.af ∧ s.sf = stA.sf)
    (fun s a hp => by
      obtain ⟨_, haf', hsf', _⟩ := rename_in_album_effects a (underscorify kv.1 ++ "__") dup
        ((underscorify kv.1 ++ "__") ++ dup) s _ _ Prod.mk.eta.symm
      exact ⟨haf'.trans hp.1, hsf'.trans hp.2⟩)
    kv.2 stA ⟨rfl, rfl⟩
  rw [hfold] at hpres
  exact ⟨hpres.1.trans hafA, hpres.2.trans hsfA⟩

/-- C3, amended. After a successful duplicate resolution for one
source-duplicate key, the key is gone from both merged indices and from
every source folder dictionary; an album folder whose copy byte-matched
no source copy may still hold it (see the counterexample). Hypotheses:
the merged indices and each source dictionary have distinct keys (dict
invariants), and the merged source index lists every source folder
holding the key. -/
theorem C3_source_duplicate_key_removed (rf : FPath → String) (dup : String) (st st' : RSt)
    (hok : resolve_album_duplicate rf dup st = (st', none))
    (hndaf : (st.af.map Prod.fst).Nodup)
    (hndsf : (st.sf.map Prod.fst).Nodup)
    (hpf : ∀ kv ∈ st.ps, (kv.2.photo_files.map Prod.fst).Nodup)
    (hcoh : ∀ n a, alist_lookup st.ps n = some a → alist_mem a.photo_files dup = true →
      n ∈ (dget st.sf dup).1) :
    alist_mem st'.af dup = false ∧ alist_mem st'.sf dup = false ∧
    ∀ n a, alist_lookup st'.ps n = some a → alist_mem a.photo_files dup = false := by
  obtain ⟨ams, sms, matched, st3, st4, hams, hsms, hmatched, hfold1, hfold2, hst'⟩ :=
    resolve_album_duplicate_ok_inv rf dup st st' hok
  have haf34 : st4.af = (dget st.af dup).2 ∧ st4.sf = (dget st.sf dup).2 := by
    have h3 := foldE_ok_pres_inv (step_match dup) (fun _ => True)
      (fun s => s.af = (dget st.af dup).2 ∧ s.sf = (dget st.sf dup).2) matched
      (fun _ _ _ _ _ _ => trivial)
      (fun s a s1 ha hf _ hp => by
        obtain ⟨h1, h2⟩ := step_match_af_sf dup s s1 a hf
        exact ⟨h1.trans hp.1, h2.trans hp.2⟩)
      _ st3 hfold1 trivial ⟨rfl, rfl⟩
    have h4 := foldE_ok_pres_inv (step_unmatched dup) (fun _ => True)
      (fun s => s.af = (dget st.af dup).2 ∧ s.sf = (dget st.sf dup).2) _
      (fun _ _ _ _ _ _ => trivial)
      (fun s a s1 ha hf _ hp => by
        rw [step_unmatched_eq] at hf
        obtain ⟨_, h1, h2, _, _⟩ := rename_in_source_effects _ _ _ _ s s1 none hf
        exact ⟨h1.trans hp.1, h2.trans hp.2⟩)
      st3 st4 hfold2 trivial h3.2
    exact h4.2
  have hsmskeys := (lookup_clusters_spec st.ps (dget st.sf dup).1 dup sms hsms).1
  have hI3 : ∀ kv ∈ st3.ps, (kv.2.photo_files.map Prod.fst).Nodup :=
    (foldE_ok_pres_inv (step_match dup)
      (fun s => ∀ kv ∈ s.ps, (kv.2.photo_files.map Prod.fst).Nodup) (fun _ => True)
      matched (fun s kv s1 _ hf hI => step_match_pf_nodup dup s s1 kv hf hI)
      (fun _ _ _ _ _ _ _ => trivial) _ st3 hfold1 hpf trivial).1
  refine ⟨?_, ?_, ?_⟩
  · rw [hst']
    show alist_mem (alist_del st4.af dup) dup = false
    rw [haf34.1]
    exact alist_mem_del_self _ dup (dget_keys_nodup st.af dup hndaf)
  · rw [hst']
    show alist_mem (alist_del st4.sf dup) dup = false
    rw [haf34.2]
    exact alist_mem_del_self _ dup (dget_keys_nodup st.sf dup hndsf)
  · intro n a ha
    rw [hst'] at ha
    replace ha : alist_lookup st4.ps n = some a := ha
    by_cases hmm : alist_mem matched n = true
    · obtain ⟨kas, hkas⟩ := alist_mem_exists_pair matched n hmm
      have hQ3 := foldE_ok_forall_inv (step_match dup)
        (fun s => ∀ kv ∈ s.ps, (kv.2.photo_files.map Prod.fst).Nodup)
        (fun kv s => ∀ b, alist_lookup s.ps kv.1 = some b →
          alist_mem b.photo_files dup = false)
        matched
        (fun s kv s1 _ hf hI => step_match_pf_nodup dup s s1 kv hf hI)
        (fun s kv s1 _ hf hI => step_match_est_Qfree dup s s1 kv hf hI)
        (fun s kv s1 b _ _ hf hI hQ => step_match_pres_Qfree dup s s1 kv b.1 hf hI hQ)
        _ st3 hfold1 hpf (n, kas) hkas
      have hQ4 := foldE_ok_pres_inv (step_unmatched dup)
        (fun s => ∀ kv ∈ s.ps, (kv.2.photo_files.map Prod.fst).Nodup)
        (fun s => ∀ b, alist_lookup s.ps n = some b → alist_mem b.photo_files dup = false)
        _
        (fun s m s1 _ hf hI => by
          rw [step_unmatched_eq] at hf
          exact rename_in_source_pf_nodup m _ dup _ s s1 none hf hI)
        (fun s m s1 _ hf hI hQ => by
          rw [step_unmatched_eq] at hf
          exact rename_in_source_pres_Qfree m _ dup _ s s1 n hf hI hQ)
        st3 st4 hfold2 hI3 hQ3
      exact hQ4.2 a ha
    · replace hmm : alist_mem matched n = false := by
        revert hmm; cases alist_mem matched n <;> simp
      by_cases hnsrc : n ∈ (dget st.sf dup).1
      · have hnun : n ∈ (sms.map Prod.fst).filter (fun k => !alist_mem matched k) := by
          rw [List.mem_filter]
          exact ⟨by rw [hsmskeys]; exact hnsrc, by rw [hmm]; rfl⟩
        have hQ4 := foldE_ok_forall_inv (step_unmatched dup)
          (fun s => ∀ kv ∈ s.ps, (kv.2.photo_files.map Prod.fst).Nodup)
          (fun m s => ∀ b, alist_lookup s.ps m = some b →
            alist_mem b.photo_files dup = false)
          _
          (fun s m s1 _ hf hI => by
            rw [step_unmatched_eq] at hf
            exact rename_in_source_pf_nodup m _ dup _ s s1 none hf hI)
          (fun s m s1 _ hf hI => by
            rw [step_unmatched_eq] at hf
            exact rename_in_source_ok_Qfree m _ dup _ s s1 hf hI)
          (fun s m s1 b _ _ hf hI hQ => by
            rw [step_unmatched_eq] at hf
            exact rename_in_source_pres_Qfree m _ dup _ s s1 b hf hI hQ)
          st3 st4 hfold2 hI3 n hnun
        exact hQ4 a ha
      · have hmkeys : ∀ kv ∈ matched, kv.1 ∈ (dget st.sf dup).1 := by
          intro kv hkv
          rcases build_matches_keys rf ams sms [] matched hmatched kv.1
              (List.mem_map.mpr ⟨kv, hkv, rfl⟩) with h' | h'
          · simp at h'
          · rw [← hsmskeys]; exact h'
        have hflr1 := foldE_ok_pres_inv (step_match dup) (fun _ => True)
          (fun s => alist_lookup s.ps n = alist_lookup st.ps n) matched
          (fun _ _ _ _ _ _ => trivial)
          (fun s kv s1 hkv hf _ hp => by
            obtain ⟨stA, eA, hr, hps⟩ := step_match_ps dup s s1 none kv hf
            obtain ⟨_, _, _, _, hframe⟩ := rename_in_source_effects _ _ _ _ s stA eA hr
            rw [hps, hframe n (fun hc => hnsrc (by rw [hc]; exact hmkeys kv hkv)), hp])
          _ st3 hfold1 trivial rfl
        have hflr2 := foldE_ok_pres_inv (step_unmatched dup) (fun _ => True)
          (fun s => alist_lookup s.ps n = alist_lookup st.ps n) _
          (fun _ _ _ _ _ _ => trivial)
          (fun s m s1 hm hf _ hp => by
            rw [step_unmatched_eq] at hf
            obtain ⟨_, _, _, _, hframe⟩ := rename_in_source_effects _ _ _ _ s s1 none hf
            have hmem : m ∈ (dget st.sf dup).1 := by
              have hh := (List.mem_filter.mp hm).1
              rw [hsmskeys] at hh
              exact hh
            rw [hframe n (fun hc => hnsrc (by rw [hc]; exact hmem)), hp])
          st3 st4 hfold2 trivial hflr1.2
        rw [hflr2.2] at ha
        cases hmem2 : alist_mem a.photo_files dup
        · rfl
        · exact absurd (hcoh n a ha hmem2) hnsrc

/-- C3, witness: the amended statement instantiated at the two-source,
one-album state with byte-distinct contents. -/
theorem C3_removed_witness :
    alist_mem (resolve_album_duplicate rf_distinct "x.jpg" st_dup).1.af "x.jpg" = false ∧
    alist_mem (resolve_album_duplicate rf_distinct "x.jpg" st_dup).1.sf "x.jpg" = false ∧
    ∀ n a, alist_lookup (resolve_album_duplicate rf_distinct "x.jpg" st_dup).1.ps n =
        some a → alist_mem a.photo_files "x.jpg" = false := by
  apply C3_source_duplicate_key_removed rf_distinct "x.jpg" st_dup
    (resolve_album_duplicate rf_distinct "x.jpg" st_dup).1
    (by decide) (by decide) (by decide) (by decide)
  intro n a ha hmem
  by_cases h1 : ("Photos from 2020" : String) = n
  · subst h1
    decide
  · by_cases h2 : ("Photos from 2021" : String) = n
    · subst h2
      decide
    · exfalso
      replace ha : alist_lookup
          [("Photos from 2020", src2020_album), ("Photos from 2021", src2021_album)] n =
            some a := ha
      simp only [alist_lookup] at ha
      rw [if_neg h1, if_neg h2] at ha
      cases ha

/-- Splitting a successful fold at one of its elements. -/
theorem foldE_ok_split {σ α : Type} (f : σ → α → σ × Option String)
    (l : List α) (s s' : σ) (a : α)
    (h : foldE f s l = (s', none)) (ha : a ∈ l) :
    ∃ l1 l2 s1 s2, l = l1 ++ a :: l2 ∧ foldE f s l1 = (s1, none) ∧
      f s1 a = (s2, none) ∧ foldE f s2 l2 = (s', none) := by
  induction l generalizing s with
  | nil => simp at ha
  | cons x t ih =>
    simp only [foldE] at h
    cases hf : f s x with
    | mk sx e =>
      rw [hf] at h
      cases e with
      | some m => cases h
      | none =>
        rcases List.mem_cons.mp ha with heq | hat
        · subst heq
          exact ⟨[], t, s, sx, rfl, rfl, hf, h⟩
        · obtain ⟨l1, l2, s1, s2, hsplit, h1, h2, h3⟩ := ih sx h hat
          refine ⟨x :: l1, l2, s1, s2, by rw [hsplit]; rfl, ?_, h2, h3⟩
          simp only [foldE, hf]
          exact h1

/-- Assignment makes a key present; other keys are present exactly as
before. -/
theorem alist_mem_set_iff {v : Type} (m : List (String × v)) (k : String) (a : v)
    (j : String) :
    alist_mem (alist_set m k a) j = true ↔ (alist_mem m j = true ∨ j = k) := by
  constructor
  · intro h
    by_cases hk : j = k
    · right; exact hk
    · left
      unfold alist_mem at h ⊢
      rw [alist_lookup_set_ne m k a j (fun hc => hk hc.symm)] at h
      exact h
  · intro h
    rcases h with h | h
    · by_cases hk : j = k
      · subst hk
        unfold alist_mem
        rw [alist_lookup_set_self]
        rfl
      · unfold alist_mem at h ⊢
        rw [alist_lookup_set_ne m k a j (fun hc => hk hc.symm)]
        exact h
    · subst h
      unfold alist_mem
      rw [alist_lookup_set_self]
      rfl

/-- Membership after a defaultdict append. -/
theorem dappend_mem_iff {v : Type} (m : List (String × List v)) (k : String) (a : v)
    (j : String) :
    alist_mem (dappend m k a) j = true ↔ (alist_mem m j = true ∨ j = k) := by
  cases hl : alist_lookup m k with
  | some old =>
    rw [dappend_eq_some m k a old hl]
    exact alist_mem_set_iff m k (old ++ [a]) j
  | none =>
    rw [dappend_eq_none m k a hl]
    rw [alist_mem_true_iff, alist_mem_true_iff]
    simp [List.mem_append]

/-- A key of the inner match-building result was already present, or
there is a byte-identical (album copy, source copy) pair behind it. -/
theorem build_matches_inner_mem (rf : FPath → String) (ka : String) (ac : FileCluster)
    (sms : List (String × FileCluster)) (m m' : List (String × List String))
    (h : build_matches_inner rf ka ac sms m = Except.ok m') (ks : String)
    (hmem : alist_mem m' ks = true) :
    alist_mem m ks = true ∨
    ∃ sc pa pas psrc psrcs, (ks, sc) ∈ sms ∧ ac.paths = pa :: pas ∧
      sc.paths = psrc :: psrcs ∧ compare_two_files rf pa psrc = true := by
  induction sms generalizing m with
  | nil =>
    simp only [build_matches_inner] at h
    cases h
    exact Or.inl hmem
  | cons ksa rest ih =>
    simp only [build_matches_inner] at h
    split at h
    · rename_i pa pas psrc psrcs hac hsc
      by_cases hcmp : compare_two_files rf pa psrc = true
      · rw [if_pos hcmp] at h
        rcases ih (dappend m ksa.1 ka) h with h' | h'
        · rcases (dappend_mem_iff m ksa.1 ka ks).mp h' with h'' | h''
          · exact Or.inl h''
          · right
            refine ⟨ksa.2, pa, pas, psrc, psrcs, ?_, hac, hsc, hcmp⟩
            rw [h'']
            exact List.mem_cons_self _ _
        · right
          obtain ⟨sc, pa', pas', psrc', psrcs', hmem'', h1, h2, h3⟩ := h'
          exact ⟨sc, pa', pas', psrc', psrcs', List.mem_cons.mpr (Or.inr hmem''), h1, h2, h3⟩
      · rw [if_neg hcmp] at h
        rcases ih m h with h' | h'
        · exact Or.inl h'
        · right
          obtain ⟨sc, pa', pas', psrc', psrcs', hmem'', h1, h2, h3⟩ := h'
          exact ⟨sc, pa', pas', psrc', psrcs', List.mem_cons.mpr (Or.inr hmem''), h1, h2, h3⟩
    · cases h

/-- A key of the match table comes with a byte-identical pair of an
album copy and that source copy. -/
theorem build_matches_mem (rf : FPath → String) (ams sms : List (String × FileCluster))
    (m m' : List (String × List String))
    (h : build_matches rf ams sms m = Except.ok m') (ks : String)
    (hmem : alist_mem m' ks = true) :
    alist_mem m ks = true ∨
    ∃ ka ac sc pa pas psrc psrcs, (ka, ac) ∈ ams ∧ (ks, sc) ∈ sms ∧
      ac.paths = pa :: pas ∧ sc.paths = psrc :: psrcs ∧
      compare_two_files rf pa psrc = true := by
  induction ams generalizing m with
  | nil =>
    simp only [build_matches] at h
    cases h
    exact Or.inl hmem
  | cons kac rest ih =>
    simp only [build_matches] at h
    split at h
    · cases h
    · rename_i m1 hbi
      rcases ih m1 h with h' | h'
      · rcases build_matches_inner_mem rf kac.1 kac.2 sms m m1 hbi ks h' with h'' | h''
        · exact Or.inl h''
        · right
          obtain ⟨sc, pa, pas, psrc, psrcs, hsc, h1, h2, h3⟩ := h''
          exact ⟨kac.1, kac.2, sc, pa, pas, psrc, psrcs, List.mem_cons_self _ _,
            hsc, h1, h2, h3⟩
      · right
        obtain ⟨ka, ac, sc, pa, pas, psrc, psrcs, hka, hsc, h1, h2, h3⟩ := h'
        exact ⟨ka, ac, sc, pa, pas, psrc, psrcs, List.mem_cons.mpr (Or.inr hka),
          hsc, h1, h2, h3⟩

/-- A nonempty folder-name prefix makes the renamed key differ from the
old one. -/
theorem pfx_append_ne (n dup : String) : (underscorify n ++ "__") ++ dup ≠ dup := by
  intro h
  have hlen := congrArg String.length h
  rw [String.length_append, String.length_append] at hlen
  have h2 : ("__" : String).length = 2 := rfl
  omega

/-- C5. In a successful resolution of one source-duplicate key, every
source folder listed for the key whose copy byte-matches no album copy
is renamed under a prefix derived from its own folder name (spaces to
underscores, then two underscores): its rename records are on the final
ledger and its dictionary holds the re-keyed cluster. Two byte-distinct
unmatched sources thus each get their own folder-name prefix. -/
theorem C5_unmatched_source_renamed_with_own_prefix (rf : FPath → String) (dup : String)
    (st st' : RSt) (n : String) (alb : Album) (c : FileCluster)
    (hok : resolve_album_duplicate rf dup st = (st', none))
    (hn_src : n ∈ (dget st.sf dup).1)
    (hnd_src : ((dget st.sf dup).1).Nodup)
    (hlook : alist_lookup st.ps n = some alb)
    (hc : alist_lookup alb.photo_files dup = some c)
    (hnomatch : source_matches_some_album rf st.als (dget st.af dup).1 dup c = false) :
    (∀ p ∈ c.paths,
      TaskItem.rename p ⟨p.dir, (underscorify n ++ "__") ++ p.name⟩ ∈ st'.ledger) ∧
    ∃ alb2, alist_lookup st'.ps n = some alb2 ∧
      alist_lookup alb2.photo_files ((underscorify n ++ "__") ++ dup) =
        some ⟨c.paths.map (fun p => ⟨p.dir, (underscorify n ++ "__") ++ p.name⟩)⟩ := by
  obtain ⟨ams, sms, matched, st3, st4, hams, hsms, hmatched, hfold1, hfold2, hst'⟩ :=
    resolve_album_duplicate_ok_inv rf dup st st' hok
  obtain ⟨hsmskeys, hsmsmem⟩ := lookup_clusters_spec st.ps (dget st.sf dup).1 dup sms hsms
  obtain ⟨hamskeys, hamsmem⟩ := lookup_clusters_spec st.als (dget st.af dup).1 dup ams hams
  have hmm : alist_mem matched n = false := by
    cases hmmc : alist_mem matched n
    · rfl
    · exfalso
      rcases build_matches_mem rf ams sms [] matched hmatched n hmmc with h' | h'
      · cases h'
      · obtain ⟨ka, ac, sc, pa, pas, psrc, psrcs, hka, hsc, hacp, hscp, hcmp⟩ := h'
        obtain ⟨alb2, hl2, hc2⟩ := hsmsmem (n, sc) hsc
        rw [hlook] at hl2
        have halb2 : alb2 = alb := (Option.some.inj hl2).symm
        subst halb2
        have hsceq : sc = c := by
          have hh : alist_lookup alb2.photo_files dup = some sc := hc2
          rw [hc] at hh
          exact (Option.some.inj hh).symm
        subst hsceq
        obtain ⟨alba, hla, hca⟩ := hamsmem (ka, ac) hka
        have hmt : source_matches_some_album rf st.als (dget st.af dup).1 dup sc = true := by
          unfold source_matches_some_album
          refine List.any_eq_true.mpr ⟨ka, ?_, ?_⟩
          · rw [← hamskeys]
            exact List.mem_map.mpr ⟨(ka, ac), hka, rfl⟩
          · show (match alist_lookup st.als ka with
              | none => false
              | some alb =>
                match alist_lookup alb.photo_files dup with
                | none => false
                | some ac =>
                  match ac.paths, sc.paths with
                  | pa :: _, psrc :: _ => compare_two_files rf pa psrc
                  | _, _ => false) = true
            rw [show alist_lookup st.als ka = some alba from hla]
            show (match alist_lookup alba.photo_files dup with
              | none => false
              | some ac =>
                match ac.paths, sc.paths with
                | pa :: _, psrc :: _ => compare_two_files rf pa psrc
                | _, _ => false) = true
            rw [show alist_lookup alba.photo_files dup = some ac from hca]
            show (match ac.paths, sc.paths with
              | pa :: _, psrc :: _ => compare_two_files rf pa psrc
              | _, _ => false) = true
            rw [hacp, hscp]
            exact hcmp
        rw [hnomatch] at hmt
        cases hmt
  have hnun : n ∈ (sms.map Prod.fst).filter (fun k => !alist_mem matched k) := by
    rw [List.mem_filter]
    exact ⟨by rw [hsmskeys]; exact hn_src, by rw [hmm]; rfl⟩
  have hmkeys : ∀ kv ∈ matched, kv.1 ≠ n := by
    intro kv hkv hcn
    have hmt : alist_mem matched n = true :=
      (alist_mem_true_iff matched n).mpr
        (by rw [← hcn]; exact List.mem_map.mpr ⟨kv, hkv, rfl⟩)
    rw [hmm] at hmt
    cases hmt
  have hfr1 := foldE_ok_pres_inv (step_match dup) (fun _ => True)
    (fun s => alist_lookup s.ps n = some alb) matched
    (fun _ _ _ _ _ _ => trivial)
    (fun s kv s1 hkv hf _ hp => by
      obtain ⟨stA, eA, hr, hps⟩ := step_match_ps dup s s1 none kv hf
      obtain ⟨_, _, _, _, hframe⟩ := rename_in_source_effects _ _ _ _ s stA eA hr
      rw [hps, hframe n (fun hcn => hmkeys kv hkv hcn.symm), hp])
    _ st3 hfold1 trivial hlook
  obtain ⟨l1, l2, s1, s2, hsplitu, hf1, hfn, hf2⟩ :=
    foldE_ok_split (step_unmatched dup) _ st3 st4 n hfold2 hnun
  have hund : ((sms.map Prod.fst).filter (fun k => !alist_mem matched k)).Nodup := by
    have hnd2 : (sms.map Prod.fst).Nodup := by rw [hsmskeys]; exact hnd_src
    exact hnd2.filter _
  rw [hsplitu] at hund
  have hnl1 : ∀ m ∈ l1, m ≠ n := by
    intro m hm hcn
    subst hcn
    exact (List.nodup_append.mp hund).2.2 hm (List.mem_cons_self m l2)
  have hnl2 : ∀ m ∈ l2, m ≠ n := by
    intro m hm hcn
    subst hcn
    exact (List.nodup_cons.mp (List.nodup_append.mp hund).2.1).1 hm
  have hfr2 := foldE_ok_pres_inv (step_unmatched dup) (fun _ => True)
    (fun s => alist_lookup s.ps n = some alb) l1
    (fun _ _ _ _ _ _ => trivial)
    (fun s m s1' hm hf _ hp => by
      rw [step_unmatched_eq] at hf
      obtain ⟨_, _, _, _, hframe⟩ := rename_in_source_effects _ _ _ _ s s1' none hf
      rw [hframe n (fun hcn => (hnl1 m hm) hcn.symm), hp])
    st3 s1 hf1 trivial hfr1.2
  rw [step_unmatched_eq] at hfn
  obtain ⟨alb1, c1, hl1', hc1', hs2⟩ := rename_in_source_ok n _ dup _ s1 s2 hfn
  rw [hfr2.2] at hl1'
  cases hl1'
  rw [hc] at hc1'
  cases hc1'
  have hP2 : (∀ p ∈ c.paths,
      TaskItem.rename p ⟨p.dir, (underscorify n ++ "__") ++ p.name⟩ ∈ s2.ledger) ∧
      ∃ alb2, alist_lookup s2.ps n = some alb2 ∧
        alist_lookup alb2.photo_files ((underscorify n ++ "__") ++ dup) =
          some ⟨c.paths.map (fun p => ⟨p.dir, (underscorify n ++ "__") ++ p.name⟩)⟩ := by
    subst hs2
    constructor
    · intro p hp
      refine List.mem_append_right _ ?_
      exact List.mem_map.mpr ⟨p, hp, rfl⟩
    · refine ⟨⟨alist_del (alist_set alb.photo_files
          ((underscorify n ++ "__") ++ dup)
          ⟨c.paths.map (fun p => ⟨p.dir, (underscorify n ++ "__") ++ p.name⟩)⟩) dup,
        alb.other_files, alb.name, alb.is_source, alb.is_special⟩, ?_, ?_⟩
      · show alist_lookup (alist_set s1.ps n _) n = _
        rw [alist_lookup_set_self]
      · show alist_lookup (alist_del (alist_set alb.photo_files
          ((underscorify n ++ "__") ++ dup)
          ⟨c.paths.map (fun p => ⟨p.dir, (underscorify n ++ "__") ++ p.name⟩)⟩) dup)
          ((underscorify n ++ "__") ++ dup) = _
        rw [alist_lookup_del_ne _ dup _ (fun hcd => pfx_append_ne n dup hcd.symm)]
        rw [alist_lookup_set_self]
  have hfrP := foldE_ok_pres_inv (step_unmatched dup) (fun _ => True)
    (fun s => (∀ p ∈ c.paths,
        TaskItem.rename p ⟨p.dir, (underscorify n ++ "__") ++ p.name⟩ ∈ s.ledger) ∧
      ∃ alb2, alist_lookup s.ps n = some alb2 ∧
        alist_lookup alb2.photo_files ((underscorify n ++ "__") ++ dup) =
          some ⟨c.paths.map (fun p => ⟨p.dir, (underscorify n ++ "__") ++ p.name⟩)⟩) l2
    (fun _ _ _ _ _ _ => trivial)
    (fun s m s1' hm hf _ hp => by
      rw [step_unmatched_eq] at hf
      obtain ⟨_, _, _, hled, hframe⟩ := rename_in_source_effects _ _ _ _ s s1' none hf
      obtain ⟨d, hd⟩ := hled
      refine ⟨?_, ?_⟩
      · intro p hpp
        rw [hd]
        exact List.mem_append_left _ (hp.1 p hpp)
      · obtain ⟨alb2, h1, h2⟩ := hp.2
        exact ⟨alb2, by rw [hframe n (fun hcn => (hnl2 m hm) hcn.symm)]; exact h1, h2⟩)
    s2 st4 hf2 trivial hP2
  rw [hst']
  exact hfrP.2

/-- Witness for C5 at the two-source, one-album state: the 2020 source
copy of x.jpg byte-matches no album copy, so its cluster is renamed
under the prefix derived from its own folder name. -/
theorem C5_unmatched_witness :
    (∀ p ∈ (FileCluster.mk [⟨["Photos from 2020"], "x.jpg"⟩]).paths,
      TaskItem.rename p ⟨p.dir, (underscorify "Photos from 2020" ++ "__") ++ p.name⟩ ∈
        (resolve_album_duplicate rf_distinct "x.jpg" st_dup).1.ledger) ∧
    ∃ alb2, alist_lookup (resolve_album_duplicate rf_distinct "x.jpg" st_dup).1.ps
          "Photos from 2020" = some alb2 ∧
        alist_lookup alb2.photo_files
            ((underscorify "Photos from 2020" ++ "__") ++ "x.jpg") =
          some ⟨(FileCluster.mk [⟨["Photos from 2020"], "x.jpg"⟩]).paths.map
            (fun p => ⟨p.dir, (underscorify "Photos from 2020" ++ "__") ++ p.name⟩)⟩ :=
  C5_unmatched_source_renamed_with_own_prefix rf_distinct "x.jpg" st_dup
    (resolve_album_duplicate rf_distinct "x.jpg" st_dup).1 "Photos from 2020"
    src2020_album ⟨[⟨["Photos from 2020"], "x.jpg"⟩]⟩
    (by decide) (by decide) (by decide) (by decide) (by decide) (by decide)
